import Mathlib

/-!
Shallow embedding of the notification-history provider
(`internal/providers/notifications/setup.go`) of the `elephant` repository.

Modelling conventions:

* Go `map[uint32]*Notification` is modelled as an association list
  `List (Nat × Notification)` with unique keys (a well-formedness fact that is
  proved to be preserved).  Go's map iteration order is unspecified; the list
  order is one admissible iteration order, and every theorem that depends on
  iteration order assumes pairwise-distinct timestamps, under which the result
  of `trimHistory` is order-independent.
* `uint32` values are modelled as `Nat` with an explicit `% 2 ^ 32` where the
  source can overflow (the `nextID++` counter).
* `time.Time` is modelled as a logical clock `Nat`; each call of `time.Now()`
  in the source returns the current clock value and strictly advances it,
  reflecting that successive `time.Now()` readings are increasing.
* I/O side effects (persistence writes, clipboard, log lines, DBus emissions)
  are recorded as an explicit effect list where a claim is about them.
-/

/-- `uint32` modulus. -/
def U32 : Nat := 2 ^ 32

/-- A scalar value stored in a notification's `Hints` map
(`map[string]interface{}` in the source, fed from `dbus.Variant.Value()`). -/
inductive HintValue where
  | str (s : String)
  | i32 (i : Int)
  | u32 (n : Nat)
  | u8 (n : Nat)
  | boolean (b : Bool)
  | bytes (bs : List Nat)
deriving DecidableEq, Repr

/-- The Go concrete type name carried by a hint value inside `interface{}`,
as it would appear in `encoding/gob`'s registration table. -/
def hintTypeName : HintValue → String
  | .str _ => "string"
  | .i32 _ => "int32"
  | .u32 _ => "uint32"
  | .u8 _ => "uint8"
  | .boolean _ => "bool"
  | .bytes _ => "[]uint8"

/-- `type Notification struct` (setup.go lines 61-71). -/
structure Notification where
  ID : Nat
  AppName : String
  AppIcon : String
  Summary : String
  Body : String
  Actions : List String
  ExpireTimeout : Int
  Time : Nat
  Hints : List (String × HintValue)
deriving DecidableEq, Repr

/-- `type Config struct` (setup.go lines 55-59) together with the two fields of
the squashed `common.Config` that this provider reads (`Icon`, `MinScore`).
`MaxItems` is a record count, modelled as `Nat`. -/
structure Config where
  Icon : String
  MinScore : Int
  MaxItems : Nat
  Persist : Bool
deriving DecidableEq, Repr

/-- The defaults installed by `Setup()` (setup.go lines 76-83). -/
def defaultConfig : Config :=
  { Icon := "preferences-system-notifications", MinScore := 30,
    MaxItems := 100, Persist := true }

/-- The mutable package-level state of the store: `history`, `nextID`
(setup.go lines 31-33) plus the logical clock standing for `time.Now()`. -/
structure StoreState where
  history : List (Nat × Notification)
  nextID : Nat
  clock : Nat
deriving DecidableEq, Repr

/-- The state at process start: empty history, `nextID = 1`. -/
def initState : StoreState := { history := [], nextID := 1, clock := 0 }

/-- Keys of the history map. -/
def keysOf (h : List (Nat × Notification)) : List Nat := h.map Prod.fst

/-- Timestamps of the history map's records. -/
def timesOf (h : List (Nat × Notification)) : List Nat := h.map (fun p => p.2.Time)

/-- Whether key `k` is present (`_, ok := history[k]`). -/
def mapMember (h : List (Nat × Notification)) (k : Nat) : Bool :=
  h.any (fun p => p.1 == k)

/-- `history[k] = v`: replace the record under an existing key, otherwise add
a new binding. -/
def mapSet (h : List (Nat × Notification)) (k : Nat) (v : Notification) :
    List (Nat × Notification) :=
  if mapMember h k then h.map (fun p => if p.1 == k then (k, v) else p)
  else h ++ [(k, v)]

/-- `delete(history, k)`: with unique keys, removing every binding of `k`
is Go's map delete. -/
def mapDelete (h : List (Nat × Notification)) (k : Nat) :
    List (Nat × Notification) :=
  h.filter (fun p => p.1 != k)

/-- `history[k]` as a lookup returning `nil` for a missing key. -/
def mapGet (h : List (Nat × Notification)) (k : Nat) : Option Notification :=
  (h.find? (fun p => p.1 == k)).map Prod.snd

/-- The fold inside `trimHistory` (setup.go lines 317-325): starting from
`oldestID = 0, oldestTime = time.Now()`, scan the map keeping the entry with
the strictly smallest `Time`. -/
def findOldest (h : List (Nat × Notification)) (acc : Nat × Nat) : Nat × Nat :=
  h.foldl (fun acc p => if p.2.Time < acc.2 then (p.1, p.2.Time) else acc) acc

/-- `func trimHistory()` (setup.go lines 315-330): find the oldest record and
delete it, but only when the found id is nonzero. -/
def trimHistory (s : StoreState) : StoreState :=
  let oldest := findOldest s.history (0, s.clock)
  if oldest.1 > 0 then
    { history := mapDelete s.history oldest.1, nextID := s.nextID, clock := s.clock + 1 }
  else
    { history := s.history, nextID := s.nextID, clock := s.clock + 1 }

/-- The arguments of a `Notify` call or signal, after hint unwrapping. -/
structure NotifyArgs where
  appName : String
  replacesID : Nat
  appIcon : String
  summary : String
  body : String
  actions : List String
  hints : List (String × HintValue)
  expireTimeout : Int
deriving DecidableEq, Repr

/-- The id chosen by `storeNotification` (setup.go lines 278-284). -/
def assignedId (s : StoreState) (a : NotifyArgs) : Nat :=
  if a.replacesID > 0 then a.replacesID else s.nextID

/-- The record built by `storeNotification` (setup.go lines 286-296);
`t` is the `time.Now()` reading. -/
def mkNotification (a : NotifyArgs) (id : Nat) (t : Nat) : Notification :=
  { ID := id, AppName := a.appName, AppIcon := a.appIcon, Summary := a.summary,
    Body := a.body, Actions := a.actions, ExpireTimeout := a.expireTimeout,
    Time := t, Hints := a.hints }

/-- `func storeNotification(...) uint32` (setup.go lines 274-313).
`nextID++` is a `uint32` increment, hence the `% U32`.  The asynchronous
`saveToFile` goroutine and the `ProviderUpdated` channel send do not touch the
store state and are not part of this transition. -/
def storeNotification (cfg : Config) (s : StoreState) (a : NotifyArgs) :
    StoreState × Nat :=
  let id := assignedId s a
  let s1 : StoreState :=
    { history := mapSet s.history id (mkNotification a id s.clock),
      nextID := if a.replacesID > 0 then s.nextID else (s.nextID + 1) % U32,
      clock := s.clock + 1 }
  if s1.history.length > cfg.MaxItems then (trimHistory s1, id) else (s1, id)

/-- A sequence of inserts, as in the spec's "for all sequences of inserts". -/
def runInserts (cfg : Config) (s : StoreState) (ops : List NotifyArgs) : StoreState :=
  ops.foldl (fun s a => (storeNotification cfg s a).1) s

/-- `runInserts` together with the ghost log of `(replacesID, assigned id)`
pairs, one per insert, in execution order. -/
def runLog (cfg : Config) (s : StoreState) : List NotifyArgs → List (Nat × Nat) × StoreState
  | [] => ([], s)
  | a :: rest =>
    let r := storeNotification cfg s a
    let t := runLog cfg r.1 rest
    ((a.replacesID, r.2) :: t.1, t.2)

/-- Number of inserts in a sequence that allocate a fresh id (`replacesID == 0`). -/
def freshCount (ops : List NotifyArgs) : Nat :=
  (ops.filter (fun a => a.replacesID == 0)).length

/-- The ids assigned to fresh (non-replacing) inserts, from a `runLog` log. -/
def freshAssigned (log : List (Nat × Nat)) : List Nat :=
  (log.filter (fun p => p.1 == 0)).map Prod.snd

/-- A positional DBus argument as observed in a signal body (`[]interface{}`).
`other` stands for any value of a type different from all the expected ones. -/
inductive DBusValue where
  | str (s : String)
  | u32 (n : Nat)
  | i32 (i : Int)
  | strs (l : List String)
  | dict (m : List (String × HintValue))
  | other
deriving DecidableEq, Repr

/-- Go type assertion `v.(string)` with discarded `ok`: zero value on mismatch. -/
def asString : DBusValue → String
  | .str s => s
  | _ => ""

/-- Go type assertion `v.(uint32)` with discarded `ok`: zero value on mismatch. -/
def asU32 : DBusValue → Nat
  | .u32 n => n
  | _ => 0

/-- Go type assertion `v.(int32)` with discarded `ok`: zero value on mismatch. -/
def asI32 : DBusValue → Int
  | .i32 i => i
  | _ => 0

/-- Go type assertion `v.([]string)` with discarded `ok`: nil slice on mismatch. -/
def asStrs : DBusValue → List String
  | .strs l => l
  | _ => []

/-- Go type assertion `v.(map[string]dbus.Variant)` with discarded `ok`:
nil map on mismatch.  The subsequent `v.Value()` unwrapping of each variant is
the identity on the modelled scalar payloads. -/
def asDict : DBusValue → List (String × HintValue)
  | .dict m => m
  | _ => []

/-- `dbusInterface + ".Notify"`, the signal name matched by `listenForSignals`. -/
def notifySignalName : String := "org.freedesktop.Notifications.Notify"

/-- `func handleNotifySignal(body []interface{})` (setup.go lines 209-225):
decode the 8 positional fields with `, _` type assertions and store.
The caller guarantees `body.length ≥ 8`; the `.other` defaults of `getD` are
unreachable under that guarantee. -/
def handleNotifySignal (cfg : Config) (s : StoreState) (body : List DBusValue) :
    StoreState :=
  (storeNotification cfg s
    { appName := asString (body.getD 0 .other),
      replacesID := asU32 (body.getD 1 .other),
      appIcon := asString (body.getD 2 .other),
      summary := asString (body.getD 3 .other),
      body := asString (body.getD 4 .other),
      actions := asStrs (body.getD 5 .other),
      hints := asDict (body.getD 6 .other),
      expireTimeout := asI32 (body.getD 7 .other) }).1

/-- One iteration of the passive-mode signal loop (setup.go lines 202-206):
only a signal named `...Notify` with at least 8 body arguments is handled. -/
def processSignal (cfg : Config) (s : StoreState) (name : String)
    (body : List DBusValue) : StoreState :=
  if name = notifySignalName ∧ body.length ≥ 8 then handleNotifySignal cfg s body
  else s

/-- `func (n *notificationServer) Notify(...)` (setup.go lines 239-251):
unwrap the hint variants and delegate to `storeNotification`. -/
def Notify (cfg : Config) (s : StoreState) (appName : String) (replacesID : Nat)
    (appIcon summary body : String) (actions : List String)
    (hints : List (String × HintValue)) (expireTimeout : Int) : StoreState × Nat :=
  storeNotification cfg s
    { appName := appName, replacesID := replacesID, appIcon := appIcon,
      summary := summary, body := body, actions := actions, hints := hints,
      expireTimeout := expireTimeout }

/-- An observable side effect of an operation. -/
inductive Effect where
  | savedFile
  | clipboard (content : String)
  | logError (context : String)
  | emitClosed (id reason : Nat)
deriving DecidableEq, Repr

/-- `func (n *notificationServer) CloseNotification(id uint32)`
(setup.go lines 253-268). -/
def CloseNotification (cfg : Config) (s : StoreState) (id : Nat) :
    StoreState × List Effect :=
  ({ s with history := mapDelete s.history id },
    (if cfg.Persist then [Effect.savedFile] else []) ++ [Effect.emitClosed id 3])

/-- Action name constants (setup.go lines 386-391). -/
def ActionDismiss : String := "dismiss"

/-- Action name constant `dismiss_all`. -/
def ActionDismissAll : String := "dismiss_all"

/-- Action name constant `copy`. -/
def ActionCopy : String := "copy"

/-- Action name constant `copy_body`. -/
def ActionCopyBody : String := "copy_body"

/-- The numeric value of a decimal digit character, if it is one. -/
def decDigit? (c : Char) : Option Nat :=
  if '0' ≤ c ∧ c ≤ '9' then some (c.toNat - '0'.toNat) else none

/-- Decimal accumulation over a character list; `none` at the first
non-digit character. -/
def parseDecAux : List Char → Nat → Option Nat
  | [], acc => some acc
  | c :: cs, acc =>
    match decDigit? c with
    | some d => parseDecAux cs (10 * acc + d)
    | none => none

/-- `strconv.ParseUint(s, 10, 32)` as an `Option`: `none` on the empty string,
on any non-digit character (signs included), and on values not fitting in 32
bits — exactly the inputs on which the source takes its `err != nil` branch. -/
def parseUint32 (s : String) : Option Nat :=
  match s.data with
  | [] => none
  | cs =>
    match parseDecAux cs 0 with
    | some n => if n < U32 then some n else none
    | none => none

/-- `func Activate(...)` (setup.go lines 393-447), restricted to the store
state and the `identifier`/`action` parameters it reads; the returned list
records the side effects (persistence write, clipboard call, error log). -/
def Activate (cfg : Config) (st : StoreState) (identifier action : String) :
    StoreState × List Effect :=
  let action := if action = "" then ActionDismiss else action
  if action = ActionDismiss then
    match parseUint32 identifier with
    | none => (st, [Effect.logError "parse id"])
    | some id =>
      ({ st with history := mapDelete st.history id },
        if cfg.Persist then [Effect.savedFile] else [])
  else if action = ActionDismissAll then
    ({ st with history := [] }, if cfg.Persist then [Effect.savedFile] else [])
  else if action = ActionCopy ∨ action = ActionCopyBody then
    match parseUint32 identifier with
    | none => (st, [Effect.logError "parse id"])
    | some id =>
      match mapGet st.history id with
      | none => (st, [])
      | some n =>
        let content :=
          if action = ActionCopyBody then n.Body else n.Summary ++ "\n" ++ n.Body
        (st, [Effect.clipboard content])
  else (st, [Effect.logError ("unknown action: " ++ action)])

/-- The fields of `pb.QueryResponse_Item` that this provider fills
(setup.go lines 477-490).  The `Fuzzyinfo` positions/start of the non-empty
query branch and the RFC1123 rendering of the timestamp inside `Preview` are
outside the model; the logical clock is rendered with `toString`. -/
structure QueryItem where
  Identifier : String
  Text : String
  Subtext : String
  Icon : String
  Score : Int
  Actions : List String
  Provider : String
  Preview : String
deriving DecidableEq, Repr

/-- The item built for a record `n` (setup.go lines 465-490), before scoring. -/
def buildItem (cfg : Config) (n : Notification) : QueryItem :=
  { Identifier := toString n.ID,
    Text := n.Summary,
    Subtext := if n.AppName ≠ "" then "[" ++ n.AppName ++ "] " ++ n.Body else n.Body,
    Icon := if n.AppIcon ≠ "" then n.AppIcon else cfg.Icon,
    Score := 0,
    Actions := [ActionDismiss, ActionCopy, ActionCopyBody],
    Provider := "notifications",
    Preview := n.Summary ++ "\n\n" ++ n.Body ++ "\n\nApp: " ++ n.AppName
      ++ "\nTime: " ++ toString n.Time }

/-- The timestamp reached from a sort key: parse the item's identifier and look
the record up, as the comparator in `Query` does (setup.go lines 511-522). -/
def itemTime (h : List (Nat × Notification)) (ident : String) : Option Nat :=
  (parseUint32 ident).bind (fun id => (mapGet h id).map (fun n => n.Time))

/-- The comparator of the empty-query sort, as a `le` test: `a` may precede `b`
iff `nB.Time.Compare(nA.Time) ≤ 0`.  When either lookup fails the source
comparator returns 0 (equal), so both orders are allowed. -/
def itemLe (h : List (Nat × Notification)) (a b : QueryItem) : Bool :=
  match itemTime h a.Identifier, itemTime h b.Identifier with
  | some tA, some tB => tB ≤ tA
  | _, _ => true

/-- Insert into a sorted list, keeping `a` before the first element it may
precede. -/
def orderedInsertBy (le : QueryItem → QueryItem → Bool) (a : QueryItem) :
    List QueryItem → List QueryItem
  | [] => [a]
  | b :: l => if le a b then a :: b :: l else b :: orderedInsertBy le a l

/-- A stable sort.  `slices.SortStableFunc` in the source is a stable sort for
its comparator; any two stable sorts agree whenever the comparator is a total
preorder on the elements, which holds on the sorted entries (all identifier
lookups succeed), so insertion sort is an admissible model. -/
def sortStable (le : QueryItem → QueryItem → Bool) : List QueryItem → List QueryItem
  | [] => []
  | a :: l => orderedInsertBy le a (sortStable le l)

/-- `func Query(...)` (setup.go lines 459-531).  `fuzzyScore` stands for the
external collaborator `common.FuzzyScore`, restricted to the score component
that drives filtering.  For the empty query: build one item per record, sort
newest-first by timestamp, then overwrite scores with `10000 - rank`. -/
def Query (cfg : Config) (st : StoreState)
    (fuzzyScore : String → String → Bool → Int) (query : String) (exact : Bool) :
    List QueryItem :=
  if query = "" then
    let entries := st.history.map (fun p => buildItem cfg p.2)
    let sorted := sortStable (itemLe st.history) entries
    sorted.enum.map (fun p => { p.2 with Score := 10000 - (p.1 : Int) })
  else
    st.history.filterMap (fun p =>
      let e := buildItem cfg p.2
      let searchText := p.2.Summary ++ " " ++ p.2.Body ++ " " ++ p.2.AppName
      let score := fuzzyScore query searchText exact
      if score > cfg.MinScore then some { e with Score := score } else none)

/-- A value as serialized by `encoding/gob`, at the level of abstraction of
this model: gob is self-describing, so a successfully encoded stream is
modelled by the structured value it describes.  An interface-typed value
travels as its registered concrete-type name plus payload
(`iface`). -/
inductive GobValue where
  | nat (n : Nat)
  | int (i : Int)
  | str (s : String)
  | bool (b : Bool)
  | list (vs : List GobValue)
  | iface (typeName : String) (v : GobValue)
deriving Repr

/-- The concrete types registered with `gob.Register` anywhere in the program:
the source never calls `gob.Register`, so the table is empty. -/
def gobRegisteredTypes : List String := []

/-- Payload of a hint value, used once its type is known to be registered. -/
def gobHintPayload : HintValue → GobValue
  | .str s => .str s
  | .i32 i => .int i
  | .u32 n => .nat n
  | .u8 n => .nat n
  | .boolean b => .bool b
  | .bytes bs => .list (bs.map GobValue.nat)

/-- Modelled from `encoding/gob`'s documented semantics: "Interface values are
transmitted as a string identifying the concrete type being sent (a name that
must be pre-defined by calling `Register`)"; encoding an interface value whose
concrete type is not registered fails with
`gob: type not registered for interface: <type>`. -/
def gobEncodeHint (reg : List String) (v : HintValue) : Except String GobValue :=
  if reg.contains (hintTypeName v) then .ok (.iface (hintTypeName v) (gobHintPayload v))
  else .error ("gob: type not registered for interface: " ++ hintTypeName v)

/-- Encode a `Hints` map; the first unregistered interface value aborts. -/
def gobEncodeHints (reg : List String) :
    List (String × HintValue) → Except String (List GobValue)
  | [] => .ok []
  | (k, v) :: rest => do
    let v' ← gobEncodeHint reg v
    let rest' ← gobEncodeHints reg rest
    .ok (.list [.str k, v'] :: rest')

/-- Encode one notification record. -/
def gobEncodeNotification (reg : List String) (n : Notification) :
    Except String GobValue := do
  let hints ← gobEncodeHints reg n.Hints
  .ok (.list [.nat n.ID, .str n.AppName, .str n.AppIcon, .str n.Summary,
    .str n.Body, .list (n.Actions.map GobValue.str), .int n.ExpireTimeout,
    .nat n.Time, .list hints])

/-- Encode the whole `history` map, as `encoder.Encode(history)` does. -/
def gobEncodeHistory (reg : List String) :
    List (Nat × Notification) → Except String (List GobValue)
  | [] => .ok []
  | (id, n) :: rest => do
    let n' ← gobEncodeNotification reg n
    let rest' ← gobEncodeHistory reg rest
    .ok (.list [.nat id, n'] :: rest')

/-- Decode one hint value; like encoding, decoding an interface value requires
its concrete-type name to be registered. -/
def gobDecodeHint (reg : List String) : GobValue → Except String HintValue
  | .iface tn payload =>
    if reg.contains tn then
      match tn, payload with
      | "string", .str s => .ok (.str s)
      | "int32", .int i => .ok (.i32 i)
      | "uint32", .nat n => .ok (.u32 n)
      | "uint8", .nat n => .ok (.u8 n)
      | "bool", .bool b => .ok (.boolean b)
      | "[]uint8", .list vs =>
        .ok (.bytes (vs.filterMap (fun v => match v with | .nat n => some n | _ => none)))
      | _, _ => .error "gob: wrong payload for interface value"
    else .error ("gob: name not registered for interface: " ++ tn)
  | _ => .error "gob: interface value expected"

/-- Decode a `Hints` map. -/
def gobDecodeHints (reg : List String) :
    List GobValue → Except String (List (String × HintValue))
  | [] => .ok []
  | .list [.str k, v] :: rest => do
    let v' ← gobDecodeHint reg v
    let rest' ← gobDecodeHints reg rest
    .ok ((k, v') :: rest')
  | _ => .error "gob: malformed hints entry"

/-- Decode one notification record. -/
def gobDecodeNotification (reg : List String) : GobValue → Except String Notification
  | .list [.nat id, .str appName, .str appIcon, .str summary, .str body,
      .list actions, .int expireTimeout, .nat time, .list hints] => do
    let hints' ← gobDecodeHints reg hints
    .ok { ID := id, AppName := appName, AppIcon := appIcon, Summary := summary,
          Body := body,
          Actions := actions.filterMap
            (fun v => match v with | .str s => some s | _ => none),
          ExpireTimeout := expireTimeout, Time := time, Hints := hints' }
  | _ => .error "gob: malformed notification"

/-- Decode the whole `history` map. -/
def gobDecodeHistory (reg : List String) :
    List GobValue → Except String (List (Nat × Notification))
  | [] => .ok []
  | .list [.nat id, n] :: rest => do
    let n' ← gobDecodeNotification reg n
    let rest' ← gobDecodeHistory reg rest
    .ok ((id, n') :: rest')
  | _ => .error "gob: malformed history entry"

/-- `func saveToFile()` (setup.go lines 355-378): encode the history and write
the file; on an encode error, log and leave the file as it was. -/
def saveToFile (s : StoreState) (file : Option (List GobValue)) :
    Option (List GobValue) :=
  match gobEncodeHistory gobRegisteredTypes s.history with
  | .error _ => file
  | .ok v => some v

/-- The `nextID` recomputation loop of `loadFromFile` (setup.go lines 347-351):
`for id := range history { if id >= nextID { nextID = id + 1 } }`. -/
def recomputeNextID (h : List (Nat × Notification)) (nid : Nat) : Nat :=
  h.foldl (fun acc p => if p.1 ≥ acc then p.1 + 1 else acc) nid

/-- `func loadFromFile()` (setup.go lines 332-353): if the file exists, decode
the whole mapping (on a decode error only a log line is emitted), then bump
`nextID` above every loaded id. -/
def loadFromFile (file : Option (List GobValue)) (s : StoreState) : StoreState :=
  match file with
  | none => s
  | some v =>
    match gobDecodeHistory gobRegisteredTypes v with
    | .error _ => { s with nextID := recomputeNextID s.history s.nextID }
    | .ok h => { s with history := h, nextID := recomputeNextID h s.nextID }

/-- The history map right after the `history[id] = notification` assignment
inside `storeNotification`, before the capacity check. -/
def rawInsert (s : StoreState) (a : NotifyArgs) : List (Nat × Notification) :=
  mapSet s.history (assignedId s a) (mkNotification a (assignedId s a) s.clock)

/-- The timestamp reached from an item's identifier, defaulted; used to state
the newest-first ordering of `Query`. -/
def itemTimeD (h : List (Nat × Notification)) (ident : String) : Nat :=
  (itemTime h ident).getD 0

/-- The full store state after the map assignment and counter update inside
`storeNotification`, before the capacity check. -/
def insertedState (s : StoreState) (a : NotifyArgs) : StoreState :=
  { history := rawInsert s a,
    nextID := if a.replacesID > 0 then s.nextID else (s.nextID + 1) % U32,
    clock := s.clock + 1 }

/-- The store state after `trimHistory` deletes key `k`. -/
def deletedState (s : StoreState) (k : Nat) : StoreState :=
  { history := mapDelete s.history k, nextID := s.nextID, clock := s.clock + 1 }

/-- A sample insert without a replace id. -/
def freshArg : NotifyArgs :=
  { appName := "app", replacesID := 0, appIcon := "", summary := "s",
    body := "b", actions := [], hints := [], expireTimeout := -1 }

/-- A configuration with `max_items = 0` and persistence off, used to drive
the counter-wrap scenarios. -/
def cfgZero : Config :=
  { Icon := "", MinScore := 30, MaxItems := 0, Persist := false }

/-- A configuration with `max_items = 2`, as in the spec's eviction scenario. -/
def cfgTwo : Config :=
  { Icon := "", MinScore := 30, MaxItems := 2, Persist := true }

/-- A replacing insert targeting id 5, as in the spec scenario. -/
def replaceFiveArg : NotifyArgs := { freshArg with replacesID := 5 }

/-- Distinguishable sample inserts. -/
def argA : NotifyArgs := { freshArg with summary := "a" }

/-- Distinguishable sample insert `b`. -/
def argB : NotifyArgs := { freshArg with summary := "b" }

/-- Distinguishable sample insert `c`. -/
def argC : NotifyArgs := { freshArg with summary := "c" }

/-- A small concrete store reached by two inserts, used by witnesses. -/
def sampleState : StoreState := runInserts defaultConfig initState [argA, argB]

/-- The same two-insert store under the `max_items = 2` configuration. -/
def sampleStateTwo : StoreState := runInserts cfgTwo initState [argA, argB]

/-- A three-insert store, as in the spec's empty-query scenario. -/
def sampleStateThree : StoreState :=
  runInserts defaultConfig initState [argA, argB, argC]

/-- A trivial stand-in for the external fuzzy scorer; the empty-query branch
never consults it. -/
def fuzzyZero : String → String → Bool → Int := fun _ _ _ => 0

/-- A notification carrying a typical hint (`urgency`, a `uint8` inside the
variant), as any real desktop notification does. -/
def hintNotification : Notification :=
  { ID := 1, AppName := "app", AppIcon := "", Summary := "s", Body := "b",
    Actions := [], ExpireTimeout := -1, Time := 0,
    Hints := [("urgency", .u8 1)] }

/-- A store holding one hint-bearing notification. -/
def hintStore : StoreState :=
  { history := [(1, hintNotification)], nextID := 2, clock := 1 }

/-- Core well-formedness of a store state: unique keys, all record timestamps
in the past of the clock, nonzero keys, and key-matching `ID` fields.
`initState` satisfies it, and `storeNotification` preserves it as long as the
id it assigns is nonzero. -/
def WFcore (s : StoreState) : Prop :=
  (keysOf s.history).Nodup ∧ (∀ p ∈ s.history, p.2.Time < s.clock) ∧
    (∀ p ∈ s.history, 0 < p.1) ∧ (∀ p ∈ s.history, p.2.ID = p.1)

/-- Pairwise-distinct record timestamps (guaranteed by the strictly increasing
clock; assumed where a theorem depends on the map iteration order). -/
def TimesDistinct (s : StoreState) : Prop := (timesOf s.history).Nodup

/-- The invariant of claim C9: every key maps to a record carrying that key as
its `ID`, and no stored record has id 0. -/
def historyInv (h : List (Nat × Notification)) : Prop :=
  ∀ p ∈ h, p.2.ID = p.1 ∧ p.1 ≠ 0

instance (s : StoreState) : Decidable (WFcore s) := by
  unfold WFcore
  infer_instance

instance (s : StoreState) : Decidable (TimesDistinct s) := by
  unfold TimesDistinct
  infer_instance

instance (h : List (Nat × Notification)) : Decidable (historyInv h) := by
  unfold historyInv
  infer_instance

lemma mapMember_iff {h : List (Nat × Notification)} {k : Nat} :
    mapMember h k = true ↔ ∃ p ∈ h, p.1 = k := by
  simp [mapMember, List.any_eq_true]

lemma mapMember_eq_false {h : List (Nat × Notification)} {k : Nat} :
    mapMember h k = false ↔ ∀ p ∈ h, p.1 ≠ k := by
  simp [mapMember, List.any_eq_false]

lemma mem_mapSet_elim {h : List (Nat × Notification)} {k : Nat}
    {v : Notification} {q : Nat × Notification} (hq : q ∈ mapSet h k v) :
    q = (k, v) ∨ (q ∈ h ∧ q.1 ≠ k) := by
  unfold mapSet at hq
  by_cases hm : mapMember h k
  · simp only [hm, if_true] at hq
    obtain ⟨p, hp, rfl⟩ := List.mem_map.mp hq
    by_cases hpk : p.1 = k
    · left; simp [hpk]
    · right
      constructor
      · simpa [hpk] using hp
      · simp [hpk]
  · simp only [hm, if_false] at hq
    rcases List.mem_append.mp hq with h1 | h1
    · right
      exact ⟨h1, (mapMember_eq_false.mp (Bool.eq_false_iff.mpr hm) _ h1)⟩
    · left; simpa using h1

lemma mapSet_mem_self (h : List (Nat × Notification)) (k : Nat)
    (v : Notification) : (k, v) ∈ mapSet h k v := by
  unfold mapSet
  by_cases hm : mapMember h k
  · simp only [hm, if_true]
    obtain ⟨p, hp, hpk⟩ := mapMember_iff.mp hm
    exact List.mem_map.mpr ⟨p, hp, by simp [hpk]⟩
  · simp [hm]

lemma keysOf_mapSet (h : List (Nat × Notification)) (k : Nat) (v : Notification) :
    keysOf (mapSet h k v) =
      if mapMember h k then keysOf h else keysOf h ++ [k] := by
  unfold mapSet keysOf
  by_cases hm : mapMember h k
  · simp only [hm, if_true, List.map_map]
    refine List.map_congr_left (fun p _ => ?_)
    by_cases hpk : p.1 = k
    · simp [hpk]
    · simp [hpk]
  · simp [hm]

lemma length_mapSet (h : List (Nat × Notification)) (k : Nat) (v : Notification) :
    (mapSet h k v).length =
      if mapMember h k then h.length else h.length + 1 := by
  unfold mapSet
  by_cases hm : mapMember h k <;> simp [hm]

lemma nodup_keys_mapSet (h : List (Nat × Notification)) (k : Nat)
    (v : Notification) (hn : (keysOf h).Nodup) :
    (keysOf (mapSet h k v)).Nodup := by
  rw [keysOf_mapSet]
  by_cases hm : mapMember h k
  · simpa [hm] using hn
  · have hk : k ∉ keysOf h := by
      intro hmem
      obtain ⟨p, hp, hpk⟩ := List.mem_map.mp hmem
      exact (mapMember_eq_false.mp (Bool.eq_false_iff.mpr hm) _ hp) hpk
    simp [hm, List.nodup_append, hn, hk]

lemma find?_mapReplace (h : List (Nat × Notification)) (k : Nat)
    (v : Notification) (hm : mapMember h k = true) :
    (h.map (fun p => if p.1 == k then (k, v) else p)).find?
      (fun p => p.1 == k) = some (k, v) := by
  induction h with
  | nil => simp [mapMember] at hm
  | cons c t ih =>
    rw [List.map_cons]
    by_cases hck : c.1 = k
    · have he : (if c.1 == k then (k, v) else c) = (k, v) := by simp [hck]
      rw [he]
      exact List.find?_cons_of_pos _ (by simp)
    · have he : (if c.1 == k then (k, v) else c) = c := by simp [hck]
      rw [he, List.find?_cons_of_neg _ (by simp [hck])]
      apply ih
      rcases mapMember_iff.mp hm with ⟨p, hp, hpk⟩
      rcases List.mem_cons.mp hp with rfl | hp2
      · exact absurd hpk hck
      · exact mapMember_iff.mpr ⟨p, hp2, hpk⟩

lemma mapGet_mapSet_self (h : List (Nat × Notification)) (k : Nat)
    (v : Notification) : mapGet (mapSet h k v) k = some v := by
  by_cases hm : mapMember h k
  · unfold mapGet mapSet
    simp only [hm, if_true]
    rw [find?_mapReplace h k v hm]
    rfl
  · have hfind : h.find? (fun p => p.1 == k) = none := by
      refine List.find?_eq_none.mpr (fun p hp => ?_)
      simpa using mapMember_eq_false.mp (Bool.eq_false_iff.mpr hm) p hp
    unfold mapGet mapSet
    simp [hm, List.find?_append, hfind, List.find?_cons_of_pos]

lemma mapGet_of_mem (h : List (Nat × Notification)) (p : Nat × Notification)
    (hn : (keysOf h).Nodup) (hp : p ∈ h) : mapGet h p.1 = some p.2 := by
  induction h with
  | nil => cases hp
  | cons c t ih =>
    rcases List.mem_cons.mp hp with rfl | hp'
    · unfold mapGet
      rw [List.find?_cons_of_pos _ (by simp)]
      rfl
    · have hc : (c.1 == p.1) = false := by
        have : c.1 ≠ p.1 := by
          intro he
          have : c.1 ∈ keysOf t := he ▸ List.mem_map.mpr ⟨p, hp', rfl⟩
          exact (List.nodup_cons.mp hn).1 this
        simpa using this
      unfold mapGet
      rw [List.find?_cons_of_neg _ (by simp [hc])]
      exact ih (List.nodup_cons.mp hn).2 hp'

lemma mem_mapDelete_iff {h : List (Nat × Notification)} {k : Nat}
    {q : Nat × Notification} : q ∈ mapDelete h k ↔ q ∈ h ∧ q.1 ≠ k := by
  simp [mapDelete, List.mem_filter]

lemma mapDelete_eq_self (h : List (Nat × Notification)) (k : Nat)
    (hk : ∀ p ∈ h, p.1 ≠ k) : mapDelete h k = h := by
  unfold mapDelete
  refine List.filter_eq_self.mpr (fun p hp => ?_)
  simpa using hk p hp

lemma mapDelete_cons_pos (c : Nat × Notification)
    (t : List (Nat × Notification)) (k : Nat) (hck : c.1 = k) :
    mapDelete (c :: t) k = mapDelete t k := by
  unfold mapDelete
  rw [List.filter_cons]
  simp [hck]

lemma mapDelete_cons_neg (c : Nat × Notification)
    (t : List (Nat × Notification)) (k : Nat) (hck : c.1 ≠ k) :
    mapDelete (c :: t) k = c :: mapDelete t k := by
  unfold mapDelete
  rw [List.filter_cons]
  simp [hck]

lemma length_mapDelete_of_mem (h : List (Nat × Notification)) (k : Nat)
    (x : Notification) (hn : (keysOf h).Nodup) (hx : (k, x) ∈ h) :
    (mapDelete h k).length + 1 = h.length := by
  induction h with
  | nil => cases hx
  | cons c t ih =>
    by_cases hck : c.1 = k
    · have hnt : ∀ p ∈ t, p.1 ≠ k := by
        intro p hp he
        have : c.1 ∈ keysOf t := by
          rw [hck, ← he]; exact List.mem_map.mpr ⟨p, hp, rfl⟩
        exact (List.nodup_cons.mp hn).1 this
      rw [mapDelete_cons_pos c t k hck, mapDelete_eq_self t k hnt]
      simp
    · have hx' : (k, x) ∈ t := by
        rcases List.mem_cons.mp hx with he | ht
        · exact absurd (by rw [← he]) hck
        · exact ht
      have h2 := ih (List.nodup_cons.mp hn).2 hx'
      rw [mapDelete_cons_neg c t k hck]
      simp only [List.length_cons]
      omega

lemma mapGet_mapDelete_ne (h : List (Nat × Notification)) (k r : Nat)
    (hne : r ≠ k) : mapGet (mapDelete h k) r = mapGet h r := by
  induction h with
  | nil => rfl
  | cons c t ih =>
    by_cases hck : c.1 = k
    · rw [mapDelete_cons_pos c t k hck]
      unfold mapGet
      rw [List.find?_cons_of_neg _ (by simp only [hck]; simpa using fun he => hne he.symm)]
      exact ih
    · rw [mapDelete_cons_neg c t k hck]
      by_cases hcr : c.1 = r
      · unfold mapGet
        rw [List.find?_cons_of_pos _ (by simp [hcr]),
          List.find?_cons_of_pos _ (by simp [hcr])]
      · unfold mapGet
        rw [List.find?_cons_of_neg _ (by simp [hcr]),
          List.find?_cons_of_neg _ (by simp [hcr])]
        exact ih

lemma keysOf_mapDelete_sublist (h : List (Nat × Notification)) (k : Nat) :
    (keysOf (mapDelete h k)).Sublist (keysOf h) :=
  List.Sublist.map Prod.fst (List.filter_sublist h)

lemma timesOf_mapDelete_sublist (h : List (Nat × Notification)) (k : Nat) :
    (timesOf (mapDelete h k)).Sublist (timesOf h) := by
  unfold timesOf mapDelete
  exact List.Sublist.map _ (List.filter_sublist h)

lemma findOldest_le (h : List (Nat × Notification)) (acc : Nat × Nat) :
    (findOldest h acc).2 ≤ acc.2 ∧ ∀ p ∈ h, (findOldest h acc).2 ≤ p.2.Time := by
  induction h generalizing acc with
  | nil => exact ⟨le_refl _, by simp⟩
  | cons c t ih =>
    have hstep : findOldest (c :: t) acc =
        findOldest t (if c.2.Time < acc.2 then (c.1, c.2.Time) else acc) := rfl
    rw [hstep]
    set acc' := if c.2.Time < acc.2 then (c.1, c.2.Time) else acc with hacc
    have h1 : acc'.2 ≤ acc.2 := by
      rw [hacc]; split
      · exact le_of_lt (by assumption)
      · exact le_refl _
    have h2 : acc'.2 ≤ c.2.Time := by
      rw [hacc]; split
      · exact le_refl _
      · omega
    obtain ⟨ihle, ihall⟩ := ih acc'
    refine ⟨le_trans ihle h1, fun p hp => ?_⟩
    rcases List.mem_cons.mp hp with rfl | hp'
    · exact le_trans ihle h2
    · exact ihall p hp'

lemma findOldest_mem (h : List (Nat × Notification)) (acc : Nat × Nat) :
    findOldest h acc = acc ∨ ∃ p ∈ h, findOldest h acc = (p.1, p.2.Time) := by
  induction h generalizing acc with
  | nil => exact Or.inl rfl
  | cons c t ih =>
    have hstep : findOldest (c :: t) acc =
        findOldest t (if c.2.Time < acc.2 then (c.1, c.2.Time) else acc) := rfl
    rw [hstep]
    by_cases hc : c.2.Time < acc.2
    · rw [if_pos hc]
      rcases ih (c.1, c.2.Time) with he | ⟨p, hp, he⟩
      · exact Or.inr ⟨c, List.mem_cons_self c t, he⟩
      · exact Or.inr ⟨p, List.mem_cons_of_mem c hp, he⟩
    · rw [if_neg hc]
      rcases ih acc with he | ⟨p, hp, he⟩
      · exact Or.inl he
      · exact Or.inr ⟨p, List.mem_cons_of_mem c hp, he⟩

lemma findOldest_found (h : List (Nat × Notification)) (acc : Nat × Nat)
    (hne : ∃ p ∈ h, p.2.Time < acc.2) :
    ∃ p ∈ h, findOldest h acc = (p.1, p.2.Time) := by
  rcases findOldest_mem h acc with he | hr
  · obtain ⟨p, hp, hlt⟩ := hne
    have := (findOldest_le h acc).2 p hp
    rw [he] at this
    omega
  · exact hr

lemma timesOf_nodup_mapSet (h : List (Nat × Notification)) (k : Nat)
    (v : Notification) (hk : (keysOf h).Nodup) (ht : (timesOf h).Nodup)
    (hv : v.Time ∉ timesOf h) : (timesOf (mapSet h k v)).Nodup := by
  unfold mapSet
  by_cases hm : mapMember h k
  · simp only [hm, if_true]
    unfold timesOf
    rw [List.map_map]
    have hkp : List.Pairwise (fun p q : Nat × Notification => p.1 ≠ q.1) h := by
      have := hk; unfold keysOf at this
      exact (List.pairwise_map).mp this
    have htp : List.Pairwise
        (fun p q : Nat × Notification => p.2.Time ≠ q.2.Time) h := by
      have := ht; unfold timesOf at this
      exact (List.pairwise_map).mp this
    show List.Pairwise (fun a b => a ≠ b) _
    rw [List.pairwise_map]
    refine (hkp.and htp).imp_of_mem (fun {p q} hp hq hand => ?_)
    obtain ⟨hne, hte⟩ := hand
    show (if (p.1 == k) = true then (k, v) else p).2.Time ≠
      (if (q.1 == k) = true then (k, v) else q).2.Time
    by_cases hpk : p.1 = k
    · have hqk : ¬(q.1 = k) := fun hq' => hne (hpk.trans hq'.symm)
      have hqt : q.2.Time ∈ timesOf h := List.mem_map.mpr ⟨q, hq, rfl⟩
      rw [if_pos (by simp [hpk]), if_neg (by simp [hqk])]
      intro he
      exact hv (he.symm ▸ hqt)
    · by_cases hqk : q.1 = k
      · have hpt : p.2.Time ∈ timesOf h := List.mem_map.mpr ⟨p, hp, rfl⟩
        rw [if_neg (by simp [hpk]), if_pos (by simp [hqk])]
        intro he
        exact hv (he ▸ hpt)
      · rw [if_neg (by simp [hpk]), if_neg (by simp [hqk])]
        exact hte
  · simp only [hm, Bool.false_eq_true, if_false]
    unfold timesOf
    rw [List.map_append]
    refine List.Nodup.append ht (by simp) ?_
    intro x hx hy
    simp only [List.map_cons, List.map_nil, List.mem_singleton] at hy
    exact hv (hy ▸ hx)

lemma times_inj_on {h : List (Nat × Notification)} (ht : (timesOf h).Nodup)
    {p q : Nat × Notification} (hp : p ∈ h) (hq : q ∈ h)
    (he : p.2.Time = q.2.Time) : p = q :=
  List.inj_on_of_nodup_map ht hp hq he

lemma min_time_unique {h : List (Nat × Notification)} (ht : (timesOf h).Nodup)
    {p : Nat × Notification} (hp : p ∈ h)
    (hmin : ∀ q ∈ h, p.2.Time ≤ q.2.Time) :
    ∀ q ∈ h, q ≠ p → p.2.Time < q.2.Time := by
  intro q hq hne
  rcases lt_or_eq_of_le (hmin q hq) with hlt | heq
  · exact hlt
  · exact absurd (times_inj_on ht hq hp heq.symm) hne

lemma storeNotification_def (cfg : Config) (s : StoreState) (a : NotifyArgs) :
    storeNotification cfg s a =
      if (rawInsert s a).length > cfg.MaxItems
        then (trimHistory (insertedState s a), assignedId s a)
        else (insertedState s a, assignedId s a) := rfl

lemma storeNotification_snd (cfg : Config) (s : StoreState) (a : NotifyArgs) :
    (storeNotification cfg s a).2 = assignedId s a := by
  rw [storeNotification_def]
  split <;> rfl

lemma trimHistory_nextID (s : StoreState) :
    (trimHistory s).nextID = s.nextID := by
  by_cases h : (findOldest s.history (0, s.clock)).1 > 0 <;>
    simp [trimHistory, h]

lemma storeNotification_nextID (cfg : Config) (s : StoreState) (a : NotifyArgs) :
    (storeNotification cfg s a).1.nextID =
      if a.replacesID > 0 then s.nextID else (s.nextID + 1) % U32 := by
  rw [storeNotification_def]
  by_cases h : (rawInsert s a).length > cfg.MaxItems
  · rw [if_pos h]
    show (trimHistory (insertedState s a)).nextID = _
    rw [trimHistory_nextID]
    rfl
  · rw [if_neg h]
    rfl

lemma trimHistory_spec (s : StoreState) (hne : s.history ≠ [])
    (hlt : ∀ p ∈ s.history, p.2.Time < s.clock)
    (hpos : ∀ p ∈ s.history, 0 < p.1) :
    ∃ p ∈ s.history, trimHistory s = deletedState s p.1 ∧
      ∀ q ∈ s.history, p.2.Time ≤ q.2.Time := by
  obtain ⟨p0, hp0⟩ := List.exists_mem_of_ne_nil s.history hne
  obtain ⟨q, hq, hfind⟩ :=
    findOldest_found s.history (0, s.clock) ⟨p0, hp0, hlt p0 hp0⟩
  have hmin : ∀ r ∈ s.history, q.2.Time ≤ r.2.Time := by
    intro r hr
    have h1 := (findOldest_le s.history (0, s.clock)).2 r hr
    rw [hfind] at h1
    exact h1
  refine ⟨q, hq, ?_, hmin⟩
  unfold trimHistory deletedState
  rw [hfind]
  simp [hpos q hq]

lemma rawInsert_keys_nodup (s : StoreState) (a : NotifyArgs) (hWF : WFcore s) :
    (keysOf (rawInsert s a)).Nodup :=
  nodup_keys_mapSet _ _ _ hWF.1

lemma rawInsert_time (s : StoreState) (a : NotifyArgs) (hWF : WFcore s) :
    ∀ q ∈ rawInsert s a, q.2.Time < s.clock + 1 := by
  intro q hq
  rcases mem_mapSet_elim hq with rfl | ⟨hq', _⟩
  · simp [mkNotification]
  · exact lt_trans (hWF.2.1 q hq') (Nat.lt_succ_self _)

lemma rawInsert_pos (s : StoreState) (a : NotifyArgs) (hWF : WFcore s)
    (hid : 0 < assignedId s a) : ∀ q ∈ rawInsert s a, 0 < q.1 := by
  intro q hq
  rcases mem_mapSet_elim hq with rfl | ⟨hq', _⟩
  · exact hid
  · exact hWF.2.2.1 q hq'

lemma rawInsert_idmatch (s : StoreState) (a : NotifyArgs) (hWF : WFcore s) :
    ∀ q ∈ rawInsert s a, q.2.ID = q.1 := by
  intro q hq
  rcases mem_mapSet_elim hq with rfl | ⟨hq', _⟩
  · rfl
  · exact hWF.2.2.2 q hq'

lemma rawInsert_length_le (s : StoreState) (a : NotifyArgs) :
    (rawInsert s a).length ≤ s.history.length + 1 := by
  unfold rawInsert
  rw [length_mapSet]
  split <;> omega

lemma store_characterize (cfg : Config) (s : StoreState) (a : NotifyArgs)
    (hWF : WFcore s) (hid : 0 < assignedId s a) :
    ((rawInsert s a).length ≤ cfg.MaxItems →
      (storeNotification cfg s a).1 = insertedState s a) ∧
    (cfg.MaxItems < (rawInsert s a).length →
      ∃ p ∈ rawInsert s a,
        (storeNotification cfg s a).1 = deletedState (insertedState s a) p.1 ∧
        ∀ q ∈ rawInsert s a, p.2.Time ≤ q.2.Time) := by
  constructor
  · intro hle
    rw [storeNotification_def, if_neg (by omega)]
  · intro hgt
    rw [storeNotification_def, if_pos (by omega)]
    have hne : rawInsert s a ≠ [] := by
      intro h0
      rw [h0] at hgt
      simp at hgt
    obtain ⟨p, hp, hstate, hmin⟩ := trimHistory_spec (insertedState s a)
      hne (rawInsert_time s a hWF) (rawInsert_pos s a hWF hid)
    exact ⟨p, hp, hstate, hmin⟩

lemma store_preserves (cfg : Config) (s : StoreState) (a : NotifyArgs)
    (hWF : WFcore s) (hid : 0 < assignedId s a) :
    WFcore (storeNotification cfg s a).1 ∧
    (s.history.length ≤ cfg.MaxItems →
      (storeNotification cfg s a).1.history.length ≤ cfg.MaxItems) := by
  by_cases hc : (rawInsert s a).length ≤ cfg.MaxItems
  · rw [(store_characterize cfg s a hWF hid).1 hc]
    exact ⟨⟨rawInsert_keys_nodup s a hWF, rawInsert_time s a hWF,
      rawInsert_pos s a hWF hid, rawInsert_idmatch s a hWF⟩, fun _ => hc⟩
  · obtain ⟨p, hp, hstate, hmin⟩ :=
      (store_characterize cfg s a hWF hid).2 (by omega)
    rw [hstate]
    have hlen := length_mapDelete_of_mem (rawInsert s a) p.1 p.2
      (rawInsert_keys_nodup s a hWF) hp
    have hraw := rawInsert_length_le s a
    simp only [deletedState, insertedState]
    refine ⟨⟨?_, ?_, ?_, ?_⟩, fun hle => ?_⟩
    · exact List.Nodup.sublist (keysOf_mapDelete_sublist _ _) (rawInsert_keys_nodup s a hWF)
    · intro q hq
      have h2 := rawInsert_time s a hWF q (mem_mapDelete_iff.mp hq).1
      show q.2.Time < s.clock + 1 + 1
      omega
    · exact fun q hq => rawInsert_pos s a hWF hid q (mem_mapDelete_iff.mp hq).1
    · exact fun q hq => rawInsert_idmatch s a hWF q (mem_mapDelete_iff.mp hq).1
    · show (mapDelete (rawInsert s a) p.1).length ≤ cfg.MaxItems
      omega

lemma runInserts_nil (cfg : Config) (s : StoreState) : runInserts cfg s [] = s := rfl

lemma runInserts_cons (cfg : Config) (s : StoreState) (a : NotifyArgs)
    (rest : List NotifyArgs) :
    runInserts cfg s (a :: rest) =
      runInserts cfg (storeNotification cfg s a).1 rest := rfl

lemma freshCount_nil : freshCount [] = 0 := rfl

lemma freshCount_cons (a : NotifyArgs) (ops : List NotifyArgs) :
    freshCount (a :: ops) =
      (if a.replacesID = 0 then 1 else 0) + freshCount ops := by
  unfold freshCount
  rw [List.filter_cons]
  by_cases h : a.replacesID = 0 <;> simp [h, Nat.add_comm]

lemma U32_eq : U32 = 4294967296 := rfl

lemma run_WF (cfg : Config) (ops : List NotifyArgs) :
    ∀ (s : StoreState) (f0 : Nat), WFcore s → s.history.length ≤ cfg.MaxItems →
    s.nextID = (1 + f0) % U32 → f0 + freshCount ops ≤ U32 - 1 →
    WFcore (runInserts cfg s ops) ∧
    (runInserts cfg s ops).history.length ≤ cfg.MaxItems ∧
    (runInserts cfg s ops).nextID = (1 + (f0 + freshCount ops)) % U32 := by
  induction ops with
  | nil =>
    intro s f0 hWF hlen hnid hb
    refine ⟨hWF, hlen, ?_⟩
    rw [runInserts_nil, hnid, freshCount_nil]
    norm_num
  | cons a rest ih =>
    intro s f0 hWF hlen hnid hb
    have hU32 := U32_eq
    rw [runInserts_cons]
    by_cases hzero : a.replacesID = 0
    · have hfc : freshCount (a :: rest) = 1 + freshCount rest := by
        rw [freshCount_cons, if_pos hzero]
      rw [hfc] at hb
      have hU : (1 : Nat) + f0 < U32 := by omega
      have hnz : 0 < s.nextID := by
        rw [hnid, Nat.mod_eq_of_lt hU]
        omega
      have hid : 0 < assignedId s a := by
        unfold assignedId
        rw [if_neg (by omega)]
        exact hnz
      obtain ⟨hWF', hlen'⟩ := store_preserves cfg s a hWF hid
      have hnid' : (storeNotification cfg s a).1.nextID = (1 + (f0 + 1)) % U32 := by
        rw [storeNotification_nextID, if_neg (by omega), hnid,
          Nat.mod_eq_of_lt hU]
        congr 1
      obtain ⟨h1, h2, h3⟩ := ih (storeNotification cfg s a).1 (f0 + 1) hWF'
        (hlen' hlen) hnid' (by omega)
      refine ⟨h1, h2, ?_⟩
      rw [h3, hfc]
      congr 1
      omega
    · have hfc : freshCount (a :: rest) = freshCount rest := by
        rw [freshCount_cons, if_neg hzero]
        omega
      rw [hfc] at hb
      have hid : 0 < assignedId s a := by
        unfold assignedId
        rw [if_pos (by omega)]
        omega
      obtain ⟨hWF', hlen'⟩ := store_preserves cfg s a hWF hid
      have hnid' : (storeNotification cfg s a).1.nextID = (1 + f0) % U32 := by
        rw [storeNotification_nextID, if_pos (by omega)]
        exact hnid
      obtain ⟨h1, h2, h3⟩ := ih (storeNotification cfg s a).1 f0 hWF'
        (hlen' hlen) hnid' hb
      exact ⟨h1, h2, by rw [h3, hfc]⟩

lemma runLog_cons (cfg : Config) (s : StoreState) (a : NotifyArgs)
    (rest : List NotifyArgs) :
    runLog cfg s (a :: rest) =
      ((a.replacesID, (storeNotification cfg s a).2) ::
        (runLog cfg (storeNotification cfg s a).1 rest).1,
       (runLog cfg (storeNotification cfg s a).1 rest).2) := rfl

lemma runLog_state (cfg : Config) (ops : List NotifyArgs) :
    ∀ s : StoreState, (runLog cfg s ops).2 = runInserts cfg s ops := by
  induction ops with
  | nil => intro s; rfl
  | cons a rest ih => intro s; exact ih (storeNotification cfg s a).1

lemma freshAssigned_cons_zero (id : Nat) (log : List (Nat × Nat)) :
    freshAssigned ((0, id) :: log) = id :: freshAssigned log := by
  unfold freshAssigned
  rw [List.filter_cons]
  simp

lemma freshAssigned_cons_nonzero (r id : Nat) (hr : r ≠ 0)
    (log : List (Nat × Nat)) :
    freshAssigned ((r, id) :: log) = freshAssigned log := by
  unfold freshAssigned
  rw [List.filter_cons]
  simp [hr]

lemma runLog_fresh (cfg : Config) (ops : List NotifyArgs) :
    ∀ (s : StoreState) (f0 : Nat), s.nextID = 1 + f0 →
    f0 + freshCount ops + 1 < U32 →
    freshAssigned (runLog cfg s ops).1 = List.range' (1 + f0) (freshCount ops) ∧
    (runLog cfg s ops).2.nextID = 1 + (f0 + freshCount ops) := by
  induction ops with
  | nil =>
    intro s f0 hnid hb
    exact ⟨rfl, by rw [freshCount_nil]; simpa using hnid⟩
  | cons a rest ih =>
    intro s f0 hnid hb
    have hU32 := U32_eq
    rw [runLog_cons]
    by_cases hzero : a.replacesID = 0
    · have hfc : freshCount (a :: rest) = 1 + freshCount rest := by
        rw [freshCount_cons, if_pos hzero]
      rw [hfc] at hb
      have hsnd : (storeNotification cfg s a).2 = 1 + f0 := by
        rw [storeNotification_snd]
        unfold assignedId
        rw [if_neg (by omega), hnid]
      have hnid' : (storeNotification cfg s a).1.nextID = 1 + (f0 + 1) := by
        rw [storeNotification_nextID, if_neg (by omega), hnid,
          Nat.mod_eq_of_lt (by omega)]
        omega
      obtain ⟨h1, h2⟩ := ih (storeNotification cfg s a).1 (f0 + 1) hnid' (by omega)
      constructor
      · rw [hzero, hsnd, freshAssigned_cons_zero, h1, hfc]
        have hn : 1 + freshCount rest = freshCount rest + 1 := by omega
        rw [hn, List.range'_succ]
        rfl
      · rw [runLog_state] at h2 ⊢
        rw [h2, hfc]
        omega
    · have hfc : freshCount (a :: rest) = freshCount rest := by
        rw [freshCount_cons, if_neg hzero]
        omega
      rw [hfc] at hb
      have hnid' : (storeNotification cfg s a).1.nextID = 1 + f0 := by
        rw [storeNotification_nextID, if_pos (by omega)]
        exact hnid
      obtain ⟨h1, h2⟩ := ih (storeNotification cfg s a).1 f0 hnid' hb
      constructor
      · rw [freshAssigned_cons_nonzero _ _ hzero, h1, hfc]
      · rw [runLog_state] at h2 ⊢
        rw [h2, hfc]

lemma step_fresh_empty (nid c : Nat) (h0 : 0 < nid) :
    (storeNotification cfgZero { history := [], nextID := nid, clock := c }
        freshArg).1
      = { history := [], nextID := (nid + 1) % U32, clock := c + 2 } := by
  have h1 : rawInsert { history := [], nextID := nid, clock := c } freshArg
      = [(nid, mkNotification freshArg nid c)] := by
    simp [rawInsert, mapSet, mapMember, assignedId, freshArg]
  rw [storeNotification_def, if_pos (by rw [h1]; simp [cfgZero])]
  show trimHistory (insertedState { history := [], nextID := nid, clock := c } freshArg) = _
  unfold trimHistory insertedState
  rw [h1]
  simp only [findOldest, List.foldl_cons, List.foldl_nil, mkNotification]
  rw [if_pos (Nat.lt_succ_self c)]
  simp [h0, mapDelete, freshArg]

lemma run_replicate_fresh (n : Nat) :
    ∀ (nid c : Nat), 0 < nid → nid < U32 → nid + n ≤ U32 →
    runInserts cfgZero { history := [], nextID := nid, clock := c }
      (List.replicate n freshArg)
      = { history := [], nextID := (nid + n) % U32, clock := c + 2 * n } := by
  induction n with
  | zero =>
    intro nid c h0 hlt hb
    simp [runInserts, Nat.mod_eq_of_lt hlt]
  | succ n ih =>
    intro nid c h0 hlt hb
    rw [List.replicate_succ, runInserts_cons, step_fresh_empty nid c h0]
    rcases Nat.eq_zero_or_pos n with hn | hn
    · subst hn
      rw [List.replicate_zero, runInserts_nil]
    · have hlt1 : nid + 1 < U32 := by omega
      have h0' : 0 < (nid + 1) % U32 := by
        rw [Nat.mod_eq_of_lt hlt1]
        omega
      have hlt' : (nid + 1) % U32 < U32 :=
        Nat.mod_lt _ (by rw [U32_eq]; omega)
      have hb' : (nid + 1) % U32 + n ≤ U32 := by
        rw [Nat.mod_eq_of_lt hlt1]
        omega
      rw [ih ((nid + 1) % U32) (c + 2) h0' hlt' hb']
      rw [Nat.mod_eq_of_lt hlt1]
      have he1 : nid + 1 + n = nid + (n + 1) := by omega
      have he2 : c + 2 + 2 * n = c + 2 * (n + 1) := by omega
      rw [he1, he2]

lemma wrap_state :
    runInserts cfgZero initState (List.replicate (U32 - 1) freshArg)
      = { history := [], nextID := 0, clock := 2 * (U32 - 1) } := by
  have h := run_replicate_fresh (U32 - 1) 1 0 Nat.one_pos
    (by rw [U32_eq]; omega) (by decide)
  unfold initState
  rw [h]
  have h1 : (1 + (U32 - 1)) % U32 = 0 := by decide
  rw [h1]
  have h2 : 0 + 2 * (U32 - 1) = 2 * (U32 - 1) := by omega
  rw [h2]

lemma Activate_dismiss (cfg : Config) (st : StoreState) (ident : String) :
    Activate cfg st ident ActionDismiss =
      match parseUint32 ident with
      | none => (st, [Effect.logError "parse id"])
      | some id => ({ st with history := mapDelete st.history id },
          if cfg.Persist then [Effect.savedFile] else []) := rfl

lemma Activate_default_dismiss (cfg : Config) (st : StoreState) (ident : String) :
    Activate cfg st ident "" = Activate cfg st ident ActionDismiss := rfl

lemma Activate_dismissAll (cfg : Config) (st : StoreState) (ident : String) :
    Activate cfg st ident ActionDismissAll =
      ({ st with history := [] },
        if cfg.Persist then [Effect.savedFile] else []) := rfl

lemma Activate_copy (cfg : Config) (st : StoreState) (ident : String) :
    Activate cfg st ident ActionCopy =
      match parseUint32 ident with
      | none => (st, [Effect.logError "parse id"])
      | some id =>
        match mapGet st.history id with
        | none => (st, [])
        | some n => (st, [Effect.clipboard (n.Summary ++ "\n" ++ n.Body)]) := rfl

lemma Activate_copyBody (cfg : Config) (st : StoreState) (ident : String) :
    Activate cfg st ident ActionCopyBody =
      match parseUint32 ident with
      | none => (st, [Effect.logError "parse id"])
      | some id =>
        match mapGet st.history id with
        | none => (st, [])
        | some n => (st, [Effect.clipboard n.Body]) := rfl

lemma Activate_unknown (cfg : Config) (st : StoreState) (ident action : String)
    (h0 : action ≠ "") (h1 : action ≠ ActionDismiss)
    (h2 : action ≠ ActionDismissAll) (h3 : action ≠ ActionCopy)
    (h4 : action ≠ ActionCopyBody) :
    Activate cfg st ident action =
      (st, [Effect.logError ("unknown action: " ++ action)]) := by
  unfold Activate
  rw [if_neg h0, if_neg h1, if_neg h2, if_neg (by simp [h3, h4])]

lemma historyInv_of_sub {h1 h2 : List (Nat × Notification)}
    (hsub : ∀ p ∈ h1, p ∈ h2) (hinv : historyInv h2) : historyInv h1 :=
  fun p hp => hinv p (hsub p hp)

lemma trimHistory_history_sub (s : StoreState) :
    ∀ p ∈ (trimHistory s).history, p ∈ s.history := by
  intro p hp
  by_cases h : (findOldest s.history (0, s.clock)).1 > 0
  · simp only [trimHistory, h, if_true] at hp
    exact (mem_mapDelete_iff.mp hp).1
  · simp only [trimHistory, h, if_false] at hp
    exact hp

lemma rawInsert_inv (s : StoreState) (a : NotifyArgs)
    (hinv : historyInv s.history) (hid : 0 < assignedId s a) :
    historyInv (rawInsert s a) := by
  intro p hp
  rcases mem_mapSet_elim hp with rfl | ⟨hp', _⟩
  · exact ⟨rfl, by omega⟩
  · exact hinv p hp'

lemma runInserts_append (cfg : Config) (s : StoreState)
    (l1 l2 : List NotifyArgs) :
    runInserts cfg s (l1 ++ l2) = runInserts cfg (runInserts cfg s l1) l2 :=
  List.foldl_append _ _ _ _

lemma step_fresh_zero (c : Nat) :
    (storeNotification cfgZero { history := [], nextID := 0, clock := c }
        freshArg).1.history
      = [(0, mkNotification freshArg 0 c)] := by
  have h1 : rawInsert { history := [], nextID := 0, clock := c } freshArg
      = [(0, mkNotification freshArg 0 c)] := by
    simp [rawInsert, mapSet, mapMember, assignedId, freshArg]
  rw [storeNotification_def, if_pos (by rw [h1]; simp [cfgZero])]
  show (trimHistory (insertedState { history := [], nextID := 0, clock := c } freshArg)).history = _
  unfold trimHistory insertedState
  rw [h1]
  simp only [findOldest, List.foldl_cons, List.foldl_nil, mkNotification]
  rw [if_pos (Nat.lt_succ_self c)]
  simp

/-- C1, as stated, is refuted by the `uint32` wrap of `nextID`: after `2^32`
inserts without a replace id (here under `max_items = 0`), the counter has
wrapped, a record is stored under id 0, `trimHistory`'s `oldestID > 0` guard
refuses to evict it, and the store holds more than `max_items` records right
after that insert completes. -/
theorem c1_counterexample :
    cfgZero.MaxItems <
      (runInserts cfgZero initState
        (List.replicate U32 freshArg)).history.length := by
  have hsplit : List.replicate U32 freshArg
      = List.replicate (U32 - 1) freshArg ++ [freshArg] := by
    have h : U32 = (U32 - 1) + 1 := by rw [U32_eq]
    rw [h, List.replicate_succ']
    rw [← h]
  rw [hsplit, runInserts_append, wrap_state]
  have hs : runInserts cfgZero
        { history := [], nextID := 0, clock := 2 * (U32 - 1) } [freshArg]
      = (storeNotification cfgZero
          { history := [], nextID := 0, clock := 2 * (U32 - 1) } freshArg).1 := rfl
  rw [hs, step_fresh_zero]
  simp [cfgZero]

/-- C1 (amended): for every sequence of inserts from the empty store containing
at most `2^32 - 1` inserts with `replacesID = 0` (so the `uint32` id counter
never wraps to 0), the history holds at most the configured `max_items`
records immediately after each insert completes. -/
theorem c1_amended (cfg : Config) (ops : List NotifyArgs) (i : Nat)
    (hf : freshCount ops ≤ U32 - 1) :
    (runInserts cfg initState (ops.take i)).history.length ≤ cfg.MaxItems := by
  have hsub : freshCount (ops.take i) ≤ freshCount ops := by
    unfold freshCount
    exact List.Sublist.length_le (List.Sublist.filter _ (List.take_sublist i ops))
  have h := run_WF cfg (ops.take i) initState 0 (by decide) (Nat.zero_le _)
    (by decide) (by omega)
  exact h.2.1

/-- Witness for the amended C1 at a concrete three-insert sequence. -/
theorem c1_amended_witness :
    freshCount [argA, argB, argC] ≤ U32 - 1 ∧
    (runInserts defaultConfig initState
      ([argA, argB, argC].take 3)).history.length ≤ defaultConfig.MaxItems :=
  ⟨by decide, c1_amended defaultConfig [argA, argB, argC] 3 (by decide)⟩

/-- C2, as stated, is refuted without any counter wrap: `Notify` with
`replacesID = 5` on a fresh store assigns id 5 but does not advance `nextID`;
the next fresh insert is assigned id 1, which is not greater than the
previously assigned 5, and `nextID = 2` does not exceed 5 either. -/
theorem c2_counterexample :
    (runLog defaultConfig initState [replaceFiveArg, freshArg]).1
        = [(5, 5), (0, 1)] ∧
      ¬ (5 : Nat) < 1 ∧
      (runLog defaultConfig initState [replaceFiveArg, freshArg]).2.nextID = 2 ∧
      ¬ (5 : Nat) < 2 :=
  ⟨by decide, by omega, by decide, by omega⟩

/-- C2 (amended): as long as fewer than `2^32 - 1` fresh ids have been
allocated, the ids assigned to inserts with `replacesID = 0` are strictly
increasing (each fresh insert's id exceeds every previously freshly allocated
id), and `nextID` strictly exceeds every freshly allocated id.  Ids taken over
by a nonzero `replacesID` are outside the counter's regime: the source never
consults them when allocating. -/
theorem c2_amended (cfg : Config) (ops : List NotifyArgs)
    (hf : freshCount ops + 2 ≤ U32) :
    List.Pairwise (· < ·) (freshAssigned (runLog cfg initState ops).1) ∧
    ∀ id ∈ freshAssigned (runLog cfg initState ops).1,
      id < (runLog cfg initState ops).2.nextID := by
  obtain ⟨h1, h2⟩ := runLog_fresh cfg ops initState 0 rfl (by omega)
  constructor
  · rw [h1]
    exact List.pairwise_lt_range' _ _
  · intro id hid
    rw [h1] at hid
    rw [h2]
    obtain ⟨j, hj, hje⟩ := List.mem_range'.mp hid
    omega

/-- Witness for the amended C2 at a concrete two-insert sequence. -/
theorem c2_amended_witness :
    freshCount [argA, argB] + 2 ≤ U32 ∧
    (List.Pairwise (· < ·)
        (freshAssigned (runLog defaultConfig initState [argA, argB]).1) ∧
      ∀ id ∈ freshAssigned (runLog defaultConfig initState [argA, argB]).1,
        id < (runLog defaultConfig initState [argA, argB]).2.nextID) :=
  ⟨by decide, c2_amended defaultConfig [argA, argB] (by decide)⟩

/-- C9, as stated, is refuted at a reachable store state: after `2^32 - 1`
fresh inserts under `max_items = 0` the history is empty (so the claimed
invariant holds) and `nextID` has wrapped to 0; one more insert stores a
record under id 0, violating the invariant. -/
theorem c9_counterexample :
    historyInv (runInserts cfgZero initState
        (List.replicate (U32 - 1) freshArg)).history ∧
      ¬ historyInv (storeNotification cfgZero
          (runInserts cfgZero initState (List.replicate (U32 - 1) freshArg))
          freshArg).1.history := by
  rw [wrap_state]
  constructor
  · intro p hp
    cases hp
  · rw [step_fresh_zero]
    intro h
    have h0 := h (0, mkNotification freshArg 0 (2 * (U32 - 1))) (by simp)
    exact h0.2 rfl

/-- C9 (amended): every mutating operation preserves the invariant that each
stored record's `ID` equals its key and no stored record has id 0 — for
inserts under the proviso that the assigned id is nonzero, i.e. either
`replacesID > 0` or the `uint32` counter has not wrapped to `nextID = 0`. -/
theorem c9_amended (cfg : Config) (s : StoreState) (a : NotifyArgs) (id : Nat)
    (ident : String) (hinv : historyInv s.history) :
    ((0 < a.replacesID ∨ s.nextID ≠ 0) →
      historyInv (storeNotification cfg s a).1.history) ∧
    historyInv (trimHistory s).history ∧
    historyInv (CloseNotification cfg s id).1.history ∧
    historyInv (Activate cfg s ident ActionDismiss).1.history ∧
    historyInv (Activate cfg s ident ActionDismissAll).1.history := by
  refine ⟨?_, ?_, ?_, ?_, ?_⟩
  · intro hid0
    have hid : 0 < assignedId s a := by
      unfold assignedId
      rcases hid0 with h | h
      · rw [if_pos h]
        exact h
      · split
        · assumption
        · omega
    rw [storeNotification_def]
    by_cases hc : (rawInsert s a).length > cfg.MaxItems
    · rw [if_pos hc]
      show historyInv (trimHistory (insertedState s a)).history
      intro p hp
      exact rawInsert_inv s a hinv hid p (trimHistory_history_sub _ p hp)
    · rw [if_neg hc]
      exact rawInsert_inv s a hinv hid
  · exact fun p hp => hinv p (trimHistory_history_sub s p hp)
  · exact fun p hp => hinv p (mem_mapDelete_iff.mp hp).1
  · rw [Activate_dismiss]
    cases hparse : parseUint32 ident with
    | none => exact hinv
    | some j => exact fun p hp => hinv p (mem_mapDelete_iff.mp hp).1
  · rw [Activate_dismissAll]
    intro p hp
    cases hp

/-- Witness for the amended C9 at a concrete two-record store. -/
theorem c9_amended_witness :
    historyInv sampleState.history ∧
    (((0 < freshArg.replacesID ∨ sampleState.nextID ≠ 0) →
        historyInv (storeNotification defaultConfig sampleState
          freshArg).1.history) ∧
      historyInv (trimHistory sampleState).history ∧
      historyInv (CloseNotification defaultConfig sampleState 1).1.history ∧
      historyInv (Activate defaultConfig sampleState "1"
        ActionDismiss).1.history ∧
      historyInv (Activate defaultConfig sampleState "1"
        ActionDismissAll).1.history) :=
  ⟨by decide, c9_amended defaultConfig sampleState freshArg 1 "1" (by decide)⟩

lemma rawInsert_times_nodup (s : StoreState) (a : NotifyArgs)
    (hWF : WFcore s) (ht : TimesDistinct s) :
    (timesOf (rawInsert s a)).Nodup := by
  refine timesOf_nodup_mapSet s.history _ _ hWF.1 ht ?_
  intro hmem
  obtain ⟨q, hq, hqe⟩ := List.mem_map.mp hmem
  have := hWF.2.1 q hq
  simp only [mkNotification] at hqe
  omega

/-- C3: whenever an insert pushes the history over the configured cap, exactly
one record is evicted, namely the strictly oldest one by `Time`, and nothing
is evicted otherwise.  The hypotheses describe any store state reachable
without a counter wrap: distinct keys and timestamps, timestamps in the
clock's past, nonzero keys, and a nonzero assigned id.  No bound on the size
of the starting store is assumed, so the statement covers a store bulk-loaded
over the cap: even then exactly one record is evicted per insert. -/
theorem c3_single_eviction (cfg : Config) (s : StoreState) (a : NotifyArgs)
    (hWF : WFcore s) (ht : TimesDistinct s) (hid : 0 < assignedId s a) :
    ((rawInsert s a).length ≤ cfg.MaxItems →
      (storeNotification cfg s a).1.history = rawInsert s a) ∧
    (cfg.MaxItems < (rawInsert s a).length →
      ∃ p ∈ rawInsert s a,
        (∀ q ∈ rawInsert s a, q ≠ p → p.2.Time < q.2.Time) ∧
        (storeNotification cfg s a).1.history = mapDelete (rawInsert s a) p.1 ∧
        (storeNotification cfg s a).1.history.length + 1
          = (rawInsert s a).length ∧
        ∀ q ∈ rawInsert s a, q ≠ p →
          q ∈ (storeNotification cfg s a).1.history) := by
  constructor
  · intro hle
    rw [(store_characterize cfg s a hWF hid).1 hle]
    rfl
  · intro hgt
    obtain ⟨p, hp, hstate, hmin⟩ :=
      (store_characterize cfg s a hWF hid).2 hgt
    have hraw := rawInsert_times_nodup s a hWF ht
    have hstrict := min_time_unique hraw hp hmin
    have hkeys := rawInsert_keys_nodup s a hWF
    refine ⟨p, hp, hstrict, ?_, ?_, ?_⟩
    · rw [hstate]
      rfl
    · rw [hstate]
      show (mapDelete (rawInsert s a) p.1).length + 1 = _
      exact length_mapDelete_of_mem _ p.1 p.2 hkeys hp
    · intro q hq hne
      rw [hstate]
      show q ∈ mapDelete (rawInsert s a) p.1
      refine mem_mapDelete_iff.mpr ⟨hq, fun hqe => ?_⟩
      exact hne (List.inj_on_of_nodup_map hkeys hq hp hqe)

/-- Witness for C3 at the spec's scenario: two stored notifications under
`max_items = 2`, a third insert evicts exactly the oldest; the store is left
with the two most recently timestamped records (keys 2 and 3). -/
theorem c3_single_eviction_witness :
    (WFcore sampleStateTwo ∧ TimesDistinct sampleStateTwo ∧
      0 < assignedId sampleStateTwo argC ∧
      cfgTwo.MaxItems < (rawInsert sampleStateTwo argC).length) ∧
    (cfgTwo.MaxItems < (rawInsert sampleStateTwo argC).length →
      ∃ p ∈ rawInsert sampleStateTwo argC,
        (∀ q ∈ rawInsert sampleStateTwo argC, q ≠ p → p.2.Time < q.2.Time) ∧
        (storeNotification cfgTwo sampleStateTwo argC).1.history
          = mapDelete (rawInsert sampleStateTwo argC) p.1 ∧
        (storeNotification cfgTwo sampleStateTwo argC).1.history.length + 1
          = (rawInsert sampleStateTwo argC).length ∧
        ∀ q ∈ rawInsert sampleStateTwo argC, q ≠ p →
          q ∈ (storeNotification cfgTwo sampleStateTwo argC).1.history) ∧
    keysOf (storeNotification cfgTwo sampleStateTwo argC).1.history = [2, 3] ∧
    timesOf (storeNotification cfgTwo sampleStateTwo argC).1.history = [1, 2] :=
  ⟨by decide,
    (c3_single_eviction cfgTwo sampleStateTwo argC (by decide) (by decide)
      (by decide)).2,
    by decide, by decide⟩

/-- C5: an insert with nonzero `replacesID = r` stores the new record under id
`r` (replacing an existing record in place without changing the record count,
or creating id `r` when absent — never a freshly allocated id), and the id
counter `nextID` is not advanced in either case.  The store is assumed to be
within its cap (as every insert-reachable store is) and the cap positive. -/
theorem c5_replace_semantics (cfg : Config) (s : StoreState) (a : NotifyArgs)
    (hWF : WFcore s) (hr : 0 < a.replacesID)
    (hlen : s.history.length ≤ cfg.MaxItems) (hmax : 0 < cfg.MaxItems) :
    (storeNotification cfg s a).2 = a.replacesID ∧
    (storeNotification cfg s a).1.nextID = s.nextID ∧
    mapGet (storeNotification cfg s a).1.history a.replacesID
      = some (mkNotification a a.replacesID s.clock) ∧
    (mapMember s.history a.replacesID = true →
      (storeNotification cfg s a).1.history.length = s.history.length) := by
  have hassign : assignedId s a = a.replacesID := by
    unfold assignedId
    rw [if_pos hr]
  have hid : 0 < assignedId s a := by
    rw [hassign]
    exact hr
  have hrawlen : (rawInsert s a).length =
      if mapMember s.history a.replacesID then s.history.length
      else s.history.length + 1 := by
    show (mapSet s.history (assignedId s a) _).length = _
    rw [length_mapSet, hassign]
  have hget : mapGet (rawInsert s a) a.replacesID
      = some (mkNotification a a.replacesID s.clock) := by
    show mapGet (mapSet s.history (assignedId s a)
      (mkNotification a (assignedId s a) s.clock)) a.replacesID = _
    rw [hassign]
    exact mapGet_mapSet_self s.history a.replacesID _
  refine ⟨?_, ?_, ?_, ?_⟩
  · rw [storeNotification_snd, hassign]
  · rw [storeNotification_nextID, if_pos hr]
  · by_cases hc : (rawInsert s a).length ≤ cfg.MaxItems
    · rw [(store_characterize cfg s a hWF hid).1 hc]
      exact hget
    · obtain ⟨p, hp, hstate, hmin⟩ :=
        (store_characterize cfg s a hWF hid).2 (by omega)
      have hmem : mapMember s.history a.replacesID = false := by
        cases hmemv : mapMember s.history a.replacesID with
        | false => rfl
        | true =>
          rw [hmemv, if_pos rfl] at hrawlen
          omega
      rw [hmem, if_neg (by simp)] at hrawlen
      have hne0 : s.history ≠ [] := by
        intro h0
        rw [h0] at hrawlen
        simp at hrawlen
        omega
      obtain ⟨q, hq⟩ := List.exists_mem_of_ne_nil s.history hne0
      have hqt : q.2.Time < s.clock := hWF.2.1 q hq
      have hqraw : q ∈ rawInsert s a := by
        show q ∈ mapSet s.history (assignedId s a) _
        unfold mapSet
        rw [hassign, if_neg (by rw [hmem]; simp)]
        exact List.mem_append_left _ hq
      have hplt : p.2.Time < s.clock := lt_of_le_of_lt (hmin q hqraw) hqt
      have hpne : p.1 ≠ a.replacesID := by
        rcases mem_mapSet_elim hp with rfl | ⟨hp', hpne'⟩
        · simp only [mkNotification] at hplt
          omega
        · rw [hassign] at hpne'
          exact hpne'
      rw [hstate]
      show mapGet (mapDelete (rawInsert s a) p.1) a.replacesID = _
      rw [mapGet_mapDelete_ne _ p.1 a.replacesID (Ne.symm hpne)]
      exact hget
  · intro hmem
    rw [hmem, if_pos rfl] at hrawlen
    rw [(store_characterize cfg s a hWF hid).1 (by omega)]
    show (rawInsert s a).length = s.history.length
    exact hrawlen

/-- Witness for C5 at the spec's scenario: `Notify` with `replacesID = 5` on a
store where id 5 does not exist creates the record under id 5 (not a fresh
id), and the counter is untouched; a second application replaces it in place
without changing the count. -/
theorem c5_replace_semantics_witness :
    (WFcore sampleState ∧ 0 < replaceFiveArg.replacesID ∧
      sampleState.history.length ≤ defaultConfig.MaxItems ∧
      0 < defaultConfig.MaxItems) ∧
    ((storeNotification defaultConfig sampleState replaceFiveArg).2
        = replaceFiveArg.replacesID ∧
      (storeNotification defaultConfig sampleState replaceFiveArg).1.nextID
        = sampleState.nextID ∧
      mapGet (storeNotification defaultConfig sampleState
          replaceFiveArg).1.history replaceFiveArg.replacesID
        = some (mkNotification replaceFiveArg replaceFiveArg.replacesID
            sampleState.clock) ∧
      (mapMember sampleState.history replaceFiveArg.replacesID = true →
        (storeNotification defaultConfig sampleState
            replaceFiveArg).1.history.length
          = sampleState.history.length)) ∧
    mapMember sampleState.history 5 = false ∧
    keysOf (storeNotification defaultConfig sampleState
      replaceFiveArg).1.history = [1, 2, 5] :=
  ⟨by decide,
    c5_replace_semantics defaultConfig sampleState replaceFiveArg (by decide)
      (by decide) (by decide) (by decide),
    by decide, by decide⟩

/-- C4, as stated, is refuted in its "wrong argument type" half: a signal
named `...Notify` with 8 positional arguments of entirely wrong types is not
ignored — the `, _` type assertions in `handleNotifySignal` yield Go zero
values and a record is stored, mutating the store. -/
theorem c4_counterexample :
    (processSignal defaultConfig initState notifySignalName
        [.u32 7, .str "x", .u32 0, .u32 1, .u32 2, .other, .other,
          .str "y"]).history.length = 1 ∧
      initState.history.length = 0 :=
  ⟨by decide, rfl⟩

/-- C4 (amended): in passive mode, a signal that is not named `...Notify` or
has fewer than 8 positional arguments is silently ignored; a `...Notify`
signal with at least 8 arguments is always forwarded to the store, decoding
each argument of unexpected type as the zero value of the expected type; in
particular a well-typed signal is forwarded exactly as a direct `Notify` call
would be. -/
theorem c4_amended (cfg : Config) (s : StoreState) (name : String)
    (body : List DBusValue) :
    ((name ≠ notifySignalName ∨ body.length < 8) →
      processSignal cfg s name body = s) ∧
    (8 ≤ body.length →
      processSignal cfg s notifySignalName body =
        (storeNotification cfg s
          { appName := asString (body.getD 0 .other),
            replacesID := asU32 (body.getD 1 .other),
            appIcon := asString (body.getD 2 .other),
            summary := asString (body.getD 3 .other),
            body := asString (body.getD 4 .other),
            actions := asStrs (body.getD 5 .other),
            hints := asDict (body.getD 6 .other),
            expireTimeout := asI32 (body.getD 7 .other) }).1) ∧
    (∀ (a ic su bo : String) (r : Nat) (acts : List String)
        (hs : List (String × HintValue)) (et : Int) (rest : List DBusValue),
      processSignal cfg s notifySignalName
          ([.str a, .u32 r, .str ic, .str su, .str bo, .strs acts, .dict hs,
            .i32 et] ++ rest)
        = (Notify cfg s a r ic su bo acts hs et).1) := by
  refine ⟨?_, ?_, ?_⟩
  · intro h
    unfold processSignal
    rcases h with h | h
    · rw [if_neg (fun hc => h hc.1)]
    · rw [if_neg (fun hc => absurd hc.2 (by omega))]
  · intro h
    unfold processSignal
    rw [if_pos ⟨rfl, h⟩]
    rfl
  · intro a ic su bo r acts hs et rest
    unfold processSignal
    rw [if_pos ⟨rfl, by simp⟩]
    unfold handleNotifySignal Notify
    simp [asString, asU32, asI32, asStrs, asDict, List.getD]

/-- Witness for the amended C4: an unrelated signal name is ignored, and a
concrete well-typed `Notify` signal equals the direct call. -/
theorem c4_amended_witness :
    processSignal defaultConfig sampleState
        "org.freedesktop.Notifications.ActionInvoked" [] = sampleState ∧
    processSignal defaultConfig sampleState notifySignalName
        ([.str "n", .u32 0, .str "", .str "s", .str "b", .strs [], .dict [],
          .i32 5] ++ [])
      = (Notify defaultConfig sampleState "n" 0 "" "s" "b" [] [] 5).1 :=
  ⟨(c4_amended defaultConfig sampleState
      "org.freedesktop.Notifications.ActionInvoked" []).1 (Or.inl (by decide)),
   (c4_amended defaultConfig sampleState notifySignalName
      ([.str "n", .u32 0, .str "", .str "s", .str "b", .strs [], .dict [],
        .i32 5] ++ [])).2.2 "n" "" "s" "b" 0 [] [] 5 []⟩

/-- C8: an `Activate` with an unknown action only logs the error and leaves
the store unchanged with no save or clipboard effect; an `Activate` for
`dismiss`, `copy` or `copy_body` whose identifier does not parse as a 32-bit
unsigned integer only logs the parse error, aborting with no state change and
no side effect. -/
theorem c8_malformed_activation (cfg : Config) (st : StoreState)
    (identifier action : String) :
    (action ∉ (["", ActionDismiss, ActionDismissAll, ActionCopy,
        ActionCopyBody] : List String) →
      Activate cfg st identifier action
        = (st, [Effect.logError ("unknown action: " ++ action)])) ∧
    ((action = ActionDismiss ∨ action = ActionCopy ∨ action = ActionCopyBody) →
      parseUint32 identifier = none →
      Activate cfg st identifier action
        = (st, [Effect.logError "parse id"])) := by
  constructor
  · intro h
    simp only [List.mem_cons, List.not_mem_nil, or_false, not_or] at h
    obtain ⟨h0, h1, h2, h3, h4⟩ := h
    exact Activate_unknown cfg st identifier action h0 h1 h2 h3 h4
  · rintro (rfl | rfl | rfl) hp
    · rw [Activate_dismiss, hp]
    · rw [Activate_copy, hp]
    · rw [Activate_copyBody, hp]

/-- Witness for C8: the unknown action `frobnicate` and the unparseable
identifier `12abc` both abort without touching the concrete store. -/
theorem c8_malformed_activation_witness :
    Activate defaultConfig sampleState "1" "frobnicate"
      = (sampleState, [Effect.logError ("unknown action: " ++ "frobnicate")]) ∧
    Activate defaultConfig sampleState "12abc" ActionCopy
      = (sampleState, [Effect.logError "parse id"]) :=
  ⟨(c8_malformed_activation defaultConfig sampleState "1" "frobnicate").1
      (by decide),
   (c8_malformed_activation defaultConfig sampleState "12abc" ActionCopy).2
      (Or.inr (Or.inl rfl)) (by decide)⟩

/-- C10: an `Activate` with action `copy` or `copy_body` whose identifier
parses to a valid 32-bit id that matches no stored notification returns
silently: the store is unchanged and there is no effect at all (no clipboard
call, no save, not even a log line). -/
theorem c10_copy_missing_id (cfg : Config) (st : StoreState)
    (identifier action : String) (id : Nat)
    (ha : action = ActionCopy ∨ action = ActionCopyBody)
    (hp : parseUint32 identifier = some id)
    (hg : mapGet st.history id = none) :
    Activate cfg st identifier action = (st, []) := by
  rcases ha with rfl | rfl
  · rw [Activate_copy, hp]
    show (match mapGet st.history id with
      | none => (st, [])
      | some n => (st, [Effect.clipboard (n.Summary ++ "\n" ++ n.Body)]))
        = (st, ([] : List Effect))
    rw [hg]
  · rw [Activate_copyBody, hp]
    show (match mapGet st.history id with
      | none => (st, [])
      | some n => (st, [Effect.clipboard n.Body])) = (st, ([] : List Effect))
    rw [hg]

/-- Witness for C10: copying id 99, which is absent from the concrete store,
is a silent no-op. -/
theorem c10_copy_missing_id_witness :
    (parseUint32 "99" = some 99 ∧ mapGet sampleState.history 99 = none) ∧
    Activate defaultConfig sampleState "99" ActionCopy = (sampleState, []) :=
  ⟨⟨by decide, by decide⟩,
   c10_copy_missing_id defaultConfig sampleState "99" ActionCopy 99
     (Or.inl rfl) (by decide) (by decide)⟩

lemma mem_orderedInsertBy (le : QueryItem → QueryItem → Bool) (a : QueryItem)
    (l : List QueryItem) (b : QueryItem) :
    b ∈ orderedInsertBy le a l ↔ b = a ∨ b ∈ l := by
  induction l with
  | nil => simp [orderedInsertBy]
  | cons c t ih =>
    unfold orderedInsertBy
    by_cases h : le a c
    · rw [if_pos h]
      simp [List.mem_cons]
    · rw [if_neg h]
      simp only [List.mem_cons, ih]
      tauto

lemma perm_orderedInsertBy (le : QueryItem → QueryItem → Bool) (a : QueryItem)
    (l : List QueryItem) : (orderedInsertBy le a l).Perm (a :: l) := by
  induction l with
  | nil => exact List.Perm.refl _
  | cons c t ih =>
    unfold orderedInsertBy
    by_cases h : le a c
    · rw [if_pos h]
    · rw [if_neg h]
      exact (List.Perm.cons c ih).trans (List.Perm.swap a c t)

lemma perm_sortStable (le : QueryItem → QueryItem → Bool)
    (l : List QueryItem) : (sortStable le l).Perm l := by
  induction l with
  | nil => exact List.Perm.refl _
  | cons a t ih =>
    exact (perm_orderedInsertBy le a (sortStable le t)).trans
      (List.Perm.cons a ih)

lemma pairwise_orderedInsertBy (le : QueryItem → QueryItem → Bool)
    (a : QueryItem) (l : List QueryItem)
    (hs : l.Pairwise (fun x y => le x y = true))
    (htot : ∀ b ∈ l, le a b = true ∨ le b a = true)
    (htr : ∀ b ∈ l, ∀ c ∈ l, le a b = true → le b c = true → le a c = true) :
    (orderedInsertBy le a l).Pairwise (fun x y => le x y = true) := by
  induction l with
  | nil => simp [orderedInsertBy]
  | cons b t ih =>
    obtain ⟨hb, ht⟩ := List.pairwise_cons.mp hs
    unfold orderedInsertBy
    by_cases h : le a b
    · rw [if_pos h]
      refine List.pairwise_cons.mpr ⟨?_, hs⟩
      intro x hx
      rcases List.mem_cons.mp hx with rfl | hx'
      · exact h
      · exact htr b (List.mem_cons_self _ _) x (List.mem_cons_of_mem _ hx') h
          (hb x hx')
    · rw [if_neg h]
      refine List.pairwise_cons.mpr ⟨?_, ?_⟩
      · intro x hx
        rcases (mem_orderedInsertBy le a t x).mp hx with rfl | hx'
        · rcases htot b (List.mem_cons_self _ _) with h' | h'
          · exact absurd h' h
          · exact h'
        · exact hb x hx'
      · exact ih ht (fun c hc => htot c (List.mem_cons_of_mem _ hc))
          (fun c hc d hd => htr c (List.mem_cons_of_mem _ hc) d
            (List.mem_cons_of_mem _ hd))

lemma pairwise_sortStable (le : QueryItem → QueryItem → Bool)
    (l : List QueryItem)
    (htot : ∀ b ∈ l, ∀ c ∈ l, le b c = true ∨ le c b = true)
    (htr : ∀ b ∈ l, ∀ c ∈ l, ∀ d ∈ l,
      le b c = true → le c d = true → le b d = true) :
    (sortStable le l).Pairwise (fun x y => le x y = true) := by
  induction l with
  | nil => simp [sortStable]
  | cons a t ih =>
    show (orderedInsertBy le a (sortStable le t)).Pairwise _
    have hmem : ∀ x ∈ sortStable le t, x ∈ t :=
      fun x hx => (perm_sortStable le t).mem_iff.mp hx
    refine pairwise_orderedInsertBy le a (sortStable le t) ?_ ?_ ?_
    · exact ih
        (fun b hb c hc => htot b (List.mem_cons_of_mem _ hb) c
          (List.mem_cons_of_mem _ hc))
        (fun b hb c hc d hd => htr b (List.mem_cons_of_mem _ hb) c
          (List.mem_cons_of_mem _ hc) d (List.mem_cons_of_mem _ hd))
    · exact fun b hb => htot a (List.mem_cons_self _ _) b
        (List.mem_cons_of_mem _ (hmem b hb))
    · exact fun b hb c hc => htr a (List.mem_cons_self _ _) b
        (List.mem_cons_of_mem _ (hmem b hb)) c
        (List.mem_cons_of_mem _ (hmem c hc))

lemma entry_itemTime (cfg : Config) (st : StoreState) (hWF : WFcore st)
    (hrt : ∀ p ∈ st.history, parseUint32 (toString p.1) = some p.1) :
    ∀ p ∈ st.history,
      itemTime st.history (buildItem cfg p.2).Identifier = some p.2.Time := by
  intro p hp
  have hident : (buildItem cfg p.2).Identifier = toString p.1 := by
    simp [buildItem, hWF.2.2.2 p hp]
  rw [hident]
  unfold itemTime
  rw [hrt p hp, Option.some_bind, mapGet_of_mem st.history p hWF.1 hp,
    Option.map_some']

lemma itemLe_eval {h : List (Nat × Notification)} {x y : QueryItem}
    {tx ty : Nat} (hx : itemTime h x.Identifier = some tx)
    (hy : itemTime h y.Identifier = some ty) :
    itemLe h x y = decide (ty ≤ tx) := by
  unfold itemLe
  rw [hx, hy]

lemma entries_spec (cfg : Config) (st : StoreState) (hWF : WFcore st)
    (hrt : ∀ p ∈ st.history, parseUint32 (toString p.1) = some p.1) :
    ∀ x ∈ st.history.map (fun p => buildItem cfg p.2),
      ∃ p ∈ st.history, x = buildItem cfg p.2 ∧
        itemTime st.history x.Identifier = some p.2.Time := by
  intro x hx
  obtain ⟨p, hp, rfl⟩ := List.mem_map.mp hx
  exact ⟨p, hp, rfl, entry_itemTime cfg st hWF hrt p hp⟩

lemma entries_identifiers (cfg : Config) (st : StoreState) (hWF : WFcore st) :
    (st.history.map (fun p => buildItem cfg p.2)).map (fun e => e.Identifier)
      = st.history.map (fun p => toString p.1) := by
  rw [List.map_map]
  refine List.map_congr_left (fun p hp => ?_)
  simp [buildItem, hWF.2.2.2 p hp]

lemma entries_nodup (cfg : Config) (st : StoreState) (hWF : WFcore st)
    (hrt : ∀ p ∈ st.history, parseUint32 (toString p.1) = some p.1) :
    (st.history.map (fun p => buildItem cfg p.2)).Nodup := by
  have hhist : st.history.Nodup := List.Nodup.of_map _ hWF.1
  have hids : (st.history.map (fun p => toString p.1)).Nodup := by
    refine List.Nodup.map_on ?_ hhist
    intro p hp q hq he
    have h1 : some p.1 = some q.1 := by
      rw [← hrt p hp, ← hrt q hq, he]
    exact List.inj_on_of_nodup_map hWF.1 hp hq (Option.some.inj h1)
  refine List.Nodup.of_map (fun e => e.Identifier) ?_
  rw [entries_identifiers cfg st hWF]
  exact hids

/-- C7: with an empty query string, `Query` returns one item per stored
notification, ordered newest-first by the records' timestamps (strictly, given
pairwise-distinct timestamps), with the synthetic scores `10000 - rank`:
the top item has the highest score and scores decrease by exactly one per
rank.  The parse hypothesis `hrt` records that `strconv.ParseUint` inverts
`strconv.FormatUint` on every stored key; it holds for every store whose keys
are `uint32` values and is discharged by evaluation in the witness. -/
theorem c7_empty_query (cfg : Config) (st : StoreState)
    (f : String → String → Bool → Int) (ex : Bool)
    (hWF : WFcore st) (ht : TimesDistinct st)
    (hrt : ∀ p ∈ st.history, parseUint32 (toString p.1) = some p.1) :
    (Query cfg st f "" ex).length = st.history.length ∧
    ((Query cfg st f "" ex).map (fun e => e.Score))
      = (List.range st.history.length).map
          (fun k : Nat => (10000 : Int) - (k : Int)) ∧
    (Query cfg st f "" ex).Pairwise
      (fun a b => itemTimeD st.history b.Identifier
        < itemTimeD st.history a.Identifier) ∧
    ((Query cfg st f "" ex).map (fun e => e.Identifier)).Perm
      (st.history.map (fun p => toString p.1)) := by
  have hq : Query cfg st f "" ex
      = (sortStable (itemLe st.history)
          (st.history.map (fun p => buildItem cfg p.2))).enum.map
          (fun p => { p.2 with Score := 10000 - (p.1 : Int) }) := by
    unfold Query
    rw [if_pos rfl]
  set entries := st.history.map (fun p => buildItem cfg p.2) with hentries
  set sorted := sortStable (itemLe st.history) entries with hsorted
  have hperm : sorted.Perm entries := perm_sortStable _ _
  have hspec := entries_spec cfg st hWF hrt
  rw [← hentries] at hspec
  have hsortlen : sorted.length = st.history.length := by
    rw [hperm.length_eq, hentries, List.length_map]
  have hsortspec : ∀ x ∈ sorted, ∃ p ∈ st.history, x = buildItem cfg p.2 ∧
      itemTime st.history x.Identifier = some p.2.Time :=
    fun x hx => hspec x (hperm.mem_iff.mp hx)
  refine ⟨?_, ?_, ?_, ?_⟩
  · rw [hq, List.length_map, List.enum_length, hsortlen]
  · rw [hq, List.map_map]
    show sorted.enum.map (fun p => (10000 : Int) - (p.1 : Int))
      = (List.range st.history.length).map
          (fun k : Nat => (10000 : Int) - (k : Int))
    have hcomp : (fun p : Nat × QueryItem => (10000 : Int) - (p.1 : Int))
        = (fun k : Nat => (10000 : Int) - (k : Int)) ∘ Prod.fst := rfl
    rw [hcomp, ← List.map_map, List.enum_map_fst, hsortlen]
  · -- ordering
    have hsortedLe : sorted.Pairwise
        (fun x y => itemLe st.history x y = true) := by
      refine pairwise_sortStable _ _ ?_ ?_
      · intro b hb c hc
        obtain ⟨pb, _, _, hbt⟩ := hspec b hb
        obtain ⟨pc, _, _, hct⟩ := hspec c hc
        rw [itemLe_eval hbt hct, itemLe_eval hct hbt]
        rcases Nat.le_total pc.2.Time pb.2.Time with h | h
        · exact Or.inl (by simpa using h)
        · exact Or.inr (by simpa using h)
      · intro b hb c hc d hd h1 h2
        obtain ⟨pb, _, _, hbt⟩ := hspec b hb
        obtain ⟨pc, _, _, hct⟩ := hspec c hc
        obtain ⟨pd, _, _, hdt⟩ := hspec d hd
        rw [itemLe_eval hbt hct] at h1
        rw [itemLe_eval hct hdt] at h2
        rw [itemLe_eval hbt hdt]
        simp only [decide_eq_true_eq] at h1 h2 ⊢
        omega
    have hnodup : sorted.Nodup :=
      hperm.symm.nodup (entries_nodup cfg st hWF hrt)
    have hstrict : sorted.Pairwise
        (fun a b => itemTimeD st.history b.Identifier
          < itemTimeD st.history a.Identifier) := by
      refine (hsortedLe.and hnodup).imp_of_mem ?_
      intro a b ha hb hand
      obtain ⟨hle, hne⟩ := hand
      obtain ⟨pa, hpa, hae, hat⟩ := hsortspec a ha
      obtain ⟨pb, hpb, hbe, hbt⟩ := hsortspec b hb
      rw [itemLe_eval hat hbt] at hle
      simp only [decide_eq_true_eq] at hle
      unfold itemTimeD
      rw [hat, hbt]
      simp only [Option.getD_some]
      rcases Nat.lt_or_ge pb.2.Time pa.2.Time with h | h
      · exact h
      · have heq : pb.2.Time = pa.2.Time := by omega
        have : pb = pa := times_inj_on ht hpb hpa heq
        rw [hae, hbe, this] at hne
        exact absurd rfl hne
    rw [hq]
    refine (List.pairwise_map).mpr ?_
    have henum : sorted.enum.Pairwise
        (fun p q : Nat × QueryItem =>
          itemTimeD st.history q.2.Identifier
            < itemTimeD st.history p.2.Identifier) := by
      have h0 := hstrict
      rw [show sorted = sorted.enum.map Prod.snd from
        (List.enum_map_snd sorted).symm] at h0
      exact (List.pairwise_map).mp h0
    exact henum.imp (fun h => h)
  · rw [hq, List.map_map]
    show (sorted.enum.map (fun p => p.2.Identifier)).Perm _
    have hcomp : (fun p : Nat × QueryItem => p.2.Identifier)
        = (fun e : QueryItem => e.Identifier) ∘ Prod.snd := rfl
    rw [hcomp, ← List.map_map, List.enum_map_snd]
    have h1 : (sorted.map (fun e => e.Identifier)).Perm
        (entries.map (fun e => e.Identifier)) := hperm.map _
    rw [hentries, entries_identifiers cfg st hWF] at h1
    exact h1

/-- Witness for C7: three stored notifications; the empty query returns all
three, newest first (identifiers 3, 2, 1), with scores 10000, 9999, 9998. -/
theorem c7_empty_query_witness :
    (WFcore sampleStateThree ∧ TimesDistinct sampleStateThree ∧
      (∀ p ∈ sampleStateThree.history,
        parseUint32 (toString p.1) = some p.1)) ∧
    ((Query defaultConfig sampleStateThree fuzzyZero "" false).length
        = sampleStateThree.history.length ∧
      ((Query defaultConfig sampleStateThree fuzzyZero "" false).map
          (fun e => e.Score))
        = (List.range sampleStateThree.history.length).map
            (fun k : Nat => (10000 : Int) - (k : Int)) ∧
      (Query defaultConfig sampleStateThree fuzzyZero "" false).Pairwise
        (fun a b => itemTimeD sampleStateThree.history b.Identifier
          < itemTimeD sampleStateThree.history a.Identifier) ∧
      ((Query defaultConfig sampleStateThree fuzzyZero "" false).map
          (fun e => e.Identifier)).Perm
        (sampleStateThree.history.map (fun p => toString p.1))) ∧
    ((Query defaultConfig sampleStateThree fuzzyZero "" false).map
        (fun e => e.Score)) = [10000, 9999, 9998] ∧
    ((Query defaultConfig sampleStateThree fuzzyZero "" false).map
        (fun e => e.Identifier)) = ["3", "2", "1"] :=
  ⟨⟨by decide, by decide, by decide⟩,
   c7_empty_query defaultConfig sampleStateThree fuzzyZero false (by decide)
     (by decide) (by decide),
   by decide, by decide⟩

/-- C6: the save/load round-trip is broken for exactly the case the claim
highlights.  `encoding/gob` refuses to encode an interface-typed value whose
concrete type was never passed to `gob.Register`, and the program registers
nothing; so `Save()` of any store whose records carry hints fails at encode
time (`gob: type not registered for interface: ...`), the file is never
written, and `Load()` into a fresh store cannot reproduce the mapping.  For a
hint-free store the round-trip does work and the restored counter is one above
the maximum loaded id, confirming the failure is specific to hint values. -/
theorem c6_gob_roundtrip_bug :
    gobEncodeHistory gobRegisteredTypes hintStore.history
      = Except.error "gob: type not registered for interface: uint8" ∧
    saveToFile hintStore none = none ∧
    loadFromFile (saveToFile hintStore none) initState = initState ∧
    initState.history ≠ hintStore.history ∧
    loadFromFile (saveToFile sampleState none) initState
      = { history := sampleState.history, nextID := 3, clock := 0 } ∧
    sampleState.history ≠ [] :=
  ⟨rfl, rfl, rfl, by decide, by decide, by decide⟩
